import Mathlib

/-!
Verification of the mrvn-bot playback core against its specification.

The definitions below are a shallow embedding of the Rust sources:
  * `src/mrvn-back-ytdl/src/ring_buffer.rs` (SPSC byte ring),
  * `src/mrvn-back-ytdl/src/async_ring_buffer.rs` (async wrapper),
  * `src/mrvn-back-ytdl/src/input/hls/media_segment_stream.rs` (HLS refresh),
  * `src/mrvn-back-ytdl/src/song.rs` (extractor line parsing),
  * `src/mrvn-back-ytdl/src/formats/mpegts.rs` (MPEG-TS reader readiness),
  * `src/mrvn-model/src/guild_model.rs` (per-server queue model).
Machine integers are modelled as `Nat` with explicit `% 2 ^ 64` where the
source relies on wrapping arithmetic; fallible operations return `Option`.
-/

set_option linter.unusedVariables false

namespace MrvnBot

/-! ## Ring buffer (`src/mrvn-back-ytdl/src/ring_buffer.rs`)

`RingState` models the shared `RingState` struct: the capacity together with
the two unbounded cursors.  The cursors are `usize` counters on a 64-bit
target; `fetch_add` wraps on overflow, so cursor updates are taken modulo
`usizeSize`.  The byte payload of the buffer plays no role in the verified
properties, so only the cursor state is carried. -/

/-- Size of the `usize` value space on the 64-bit targets the bot runs on. -/
def usizeSize : Nat := 2 ^ 64

structure RingState where
  capacity : Nat
  read : Nat
  write : Nat
deriving DecidableEq

/-- Length of a half-open `Range<usize>` value `start..stop`. -/
def rangeLen (r : Nat × Nat) : Nat := r.2 - r.1

/-- `Reader::read_range`: the largest contiguous readable region.
Returns `Default::default()` (the empty range `0..0`) when `read == write`;
otherwise masks both cursors by `capacity - 1` and either reads up to the end
of the buffer or up to the write offset. -/
def RingState.read_range (s : RingState) : Nat × Nat :=
  if s.read = s.write then (0, 0)
  else
    let read_offset := s.read &&& (s.capacity - 1)
    let write_offset := s.write &&& (s.capacity - 1)
    if write_offset ≤ read_offset then (read_offset, s.capacity)
    else (read_offset, write_offset)

/-- `Writer::write_range`: the largest contiguous writable region.
`size` is `write.wrapping_sub(read)`; the range is empty when the buffer is
full (`size == capacity`). -/
def RingState.write_range (s : RingState) : Nat × Nat :=
  let size := (s.write + usizeSize - s.read) % usizeSize
  if size = s.capacity then (0, 0)
  else
    let read_offset := s.read &&& (s.capacity - 1)
    let write_offset := s.write &&& (s.capacity - 1)
    if read_offset ≤ write_offset then (write_offset, s.capacity)
    else (write_offset, read_offset)

/-- The wrapping occupancy `write - read` of the ring. -/
def RingState.occupancy (s : RingState) : Nat :=
  (s.write + usizeSize - s.read) % usizeSize

/-- `Reader::consume`: `assert!(len <= self.read_range().len())` followed by a
wrapping `fetch_add` on the read cursor.  `none` models the assertion panic. -/
def RingState.reader_consume (s : RingState) (len : Nat) : Option RingState :=
  if len ≤ rangeLen s.read_range then
    some { s with read := (s.read + len) % usizeSize }
  else none

/-- `Writer::consume`: `assert!(len <= self.write_range().len())` followed by a
wrapping `fetch_add` on the write cursor.  `none` models the assertion panic. -/
def RingState.writer_consume (s : RingState) (len : Nat) : Option RingState :=
  if len ≤ rangeLen s.write_range then
    some { s with write := (s.write + len) % usizeSize }
  else none

/-- The state produced by `unchecked_ring_buffer`: both cursors start at 0. -/
def initRing (capacity : Nat) : RingState := ⟨capacity, 0, 0⟩

/-- One checked cursor advance, by either half of the ring. -/
inductive RingOp where
  | readerConsume (n : Nat)
  | writerConsume (n : Nat)
deriving DecidableEq

/-- Run an interleaving of checked `consume` calls; `none` as soon as some
call would trip its assertion. -/
def runRing : RingState → List RingOp → Option RingState
  | s, [] => some s
  | s, .readerConsume n :: rest => (s.reader_consume n).bind (runRing · rest)
  | s, .writerConsume n :: rest => (s.writer_consume n).bind (runRing · rest)

/-! ### Ring buffer arithmetic lemmas -/

theorem RingState.capacity_pos {c k : Nat} (hc : c = 2 ^ k) : 0 < c := by
  subst hc; exact Nat.pos_pow_of_pos k (by omega)

theorem mask_eq_mod {c k x : Nat} (hc : c = 2 ^ k) : x &&& (c - 1) = x % c := by
  subst hc; exact Nat.and_pow_two_sub_one_eq_mod x k

theorem capacity_dvd_usizeSize {c k : Nat} (hc : c = 2 ^ k) (hlt : c < 2 ^ 63) :
    c ∣ usizeSize := by
  subst hc
  have hk : k ≤ 64 := by
    by_contra h
    have : (2 : Nat) ^ 63 ≤ 2 ^ k := Nat.pow_le_pow_right (by omega) (by omega)
    omega
  exact pow_dvd_pow 2 hk

/-- The write cursor is the read cursor advanced by the occupancy, mod `2^64`. -/
theorem RingState.write_eq (s : RingState) (hr : s.read < usizeSize)
    (hw : s.write < usizeSize) : s.write = (s.read + s.occupancy) % usizeSize := by
  unfold RingState.occupancy
  simp only [usizeSize] at *
  omega

/-- Modulo the capacity, the write offset is the read offset advanced by the
occupancy. -/
theorem RingState.write_offset_eq (s : RingState) {k : Nat}
    (hc : s.capacity = 2 ^ k) (hlt : s.capacity < 2 ^ 63)
    (hr : s.read < usizeSize) (hw : s.write < usizeSize) :
    s.write % s.capacity = (s.read % s.capacity + s.occupancy) % s.capacity := by
  rw [s.write_eq hr hw, Nat.mod_mod_of_dvd _ (capacity_dvd_usizeSize hc hlt)]
  exact ((Nat.mod_modEq s.read s.capacity).add_right s.occupancy).symm

theorem RingState.occupancy_lt (s : RingState) (hr : s.read < usizeSize)
    (hw : s.write < usizeSize) : s.occupancy < usizeSize := by
  unfold RingState.occupancy
  exact Nat.mod_lt _ (by simp [usizeSize])

/-- Zero occupancy exactly when the cursors coincide. -/
theorem RingState.occupancy_eq_zero_iff (s : RingState) (hr : s.read < usizeSize)
    (hw : s.write < usizeSize) : s.occupancy = 0 ↔ s.read = s.write := by
  unfold RingState.occupancy
  simp only [usizeSize] at *
  omega

/-- A value below `2 * c` reduces mod `c` either to itself or by one
subtraction of `c`. -/
theorem mod_two_cases {a c : Nat} (hc : 0 < c) (ha : a < 2 * c) :
    (a < c ∧ a % c = a) ∨ (c ≤ a ∧ a % c = a - c) := by
  rcases Nat.lt_or_ge a c with h | h
  · exact Or.inl ⟨h, Nat.mod_eq_of_lt h⟩
  · refine Or.inr ⟨h, ?_⟩
    rw [Nat.mod_eq_sub_mod h]
    exact Nat.mod_eq_of_lt (by omega)

/-- The contiguous readable region never exceeds the occupancy. -/
theorem RingState.read_range_len_le (s : RingState) {k : Nat}
    (hc : s.capacity = 2 ^ k) (hlt : s.capacity < 2 ^ 63)
    (hr : s.read < usizeSize) (hw : s.write < usizeSize)
    (hocc : s.occupancy ≤ s.capacity) : rangeLen s.read_range ≤ s.occupancy := by
  have hcpos := RingState.capacity_pos hc
  by_cases heq : s.read = s.write
  · simp [RingState.read_range, heq, rangeLen]
  · have hro : s.read % s.capacity < s.capacity := Nat.mod_lt _ hcpos
    have hwo := s.write_offset_eq hc hlt hr hw
    have hd0 : s.occupancy ≠ 0 := fun h => heq ((s.occupancy_eq_zero_iff hr hw).mp h)
    have hcases :=
      mod_two_cases (a := s.read % s.capacity + s.occupancy) hcpos (by omega)
    simp only [RingState.read_range, rangeLen, heq, if_false, mask_eq_mod hc]
    rw [← hwo] at hcases
    split <;> omega

/-- The contiguous writable region never exceeds the free space. -/
theorem RingState.write_range_len_le (s : RingState) {k : Nat}
    (hc : s.capacity = 2 ^ k) (hlt : s.capacity < 2 ^ 63)
    (hr : s.read < usizeSize) (hw : s.write < usizeSize)
    (hocc : s.occupancy ≤ s.capacity) :
    rangeLen s.write_range ≤ s.capacity - s.occupancy := by
  have hcpos := RingState.capacity_pos hc
  have hro : s.read % s.capacity < s.capacity := Nat.mod_lt _ hcpos
  have hwo := s.write_offset_eq hc hlt hr hw
  have hcases :=
    mod_two_cases (a := s.read % s.capacity + s.occupancy) hcpos (by omega)
  rw [← hwo] at hcases
  have hsize : (s.write + usizeSize - s.read) % usizeSize = s.occupancy := rfl
  by_cases hfull : s.occupancy = s.capacity
  · simp [RingState.write_range, hsize, hfull, rangeLen]
  · simp only [RingState.write_range, rangeLen, hsize, hfull, if_false,
      mask_eq_mod hc]
    split <;> omega

/-- A full ring has an empty writable region. -/
theorem RingState.write_range_len_of_full (s : RingState)
    (hfull : s.occupancy = s.capacity) : rangeLen s.write_range = 0 := by
  have hsize : (s.write + usizeSize - s.read) % usizeSize = s.occupancy := rfl
  simp [RingState.write_range, hsize, hfull, rangeLen]

/-- The readable region is empty exactly when the cursors coincide. -/
theorem RingState.read_range_len_eq_zero_iff (s : RingState) {k : Nat}
    (hc : s.capacity = 2 ^ k) : rangeLen s.read_range = 0 ↔ s.read = s.write := by
  have hcpos := RingState.capacity_pos hc
  constructor
  · intro h
    by_contra heq
    have hro : s.read % s.capacity < s.capacity := Nat.mod_lt _ hcpos
    have hwoc : s.write % s.capacity < s.capacity := Nat.mod_lt _ hcpos
    simp only [RingState.read_range, rangeLen, heq, if_false,
      mask_eq_mod hc] at h
    split at h <;> omega
  · intro h
    simp [RingState.read_range, h, rangeLen]

/-- Advancing the read cursor by a checked amount lowers the occupancy by
exactly that amount. -/
theorem RingState.occupancy_advance_read (s : RingState) (n : Nat)
    (hr : s.read < usizeSize) (hw : s.write < usizeSize)
    (hn : n ≤ s.occupancy) :
    RingState.occupancy { s with read := (s.read + n) % usizeSize } =
      s.occupancy - n := by
  unfold RingState.occupancy at *
  simp only [usizeSize] at *
  omega

/-- Advancing the write cursor raises the occupancy by exactly that amount,
as long as the result stays below the wrap modulus. -/
theorem RingState.occupancy_advance_write (s : RingState) (n : Nat)
    (hr : s.read < usizeSize) (hw : s.write < usizeSize)
    (hn : s.occupancy + n < usizeSize) :
    RingState.occupancy { s with write := (s.write + n) % usizeSize } =
      s.occupancy + n := by
  unfold RingState.occupancy at *
  simp only [usizeSize] at *
  omega

/-- The cursor invariant maintained by every checked ring operation. -/
def RingInv (s : RingState) : Prop :=
  s.read < usizeSize ∧ s.write < usizeSize ∧ s.occupancy ≤ s.capacity

theorem runRing_preserves {k : Nat} :
    ∀ (ops : List RingOp) (s s' : RingState),
      s.capacity = 2 ^ k → s.capacity < 2 ^ 63 → RingInv s →
      runRing s ops = some s' → s'.capacity = s.capacity ∧ RingInv s' := by
  intro ops
  induction ops with
  | nil => intro s s' hc hlt hinv h; cases h; exact ⟨rfl, hinv⟩
  | cons op rest ih =>
    intro s s' hc hlt hinv h
    obtain ⟨hr, hw, hocc⟩ := hinv
    have hM : (0 : Nat) < usizeSize := by simp [usizeSize]
    cases op with
    | readerConsume n =>
      by_cases hn : n ≤ rangeLen s.read_range
      · have hstep : s.reader_consume n =
            some { s with read := (s.read + n) % usizeSize } := by
          simp [RingState.reader_consume, hn]
        rw [runRing, hstep, Option.some_bind] at h
        have hnle : n ≤ s.occupancy :=
          le_trans hn (s.read_range_len_le hc hlt hr hw hocc)
        have hocc' := s.occupancy_advance_read n hr hw hnle
        have := ih { s with read := (s.read + n) % usizeSize } s' hc hlt
          ⟨Nat.mod_lt _ hM, hw, by
            simp only [hocc']; show s.occupancy - n ≤ s.capacity; omega⟩ h
        exact ⟨this.1.trans rfl, this.2⟩
      · rw [runRing] at h
        simp [RingState.reader_consume, hn] at h
    | writerConsume n =>
      by_cases hn : n ≤ rangeLen s.write_range
      · have hstep : s.writer_consume n =
            some { s with write := (s.write + n) % usizeSize } := by
          simp [RingState.writer_consume, hn]
        rw [runRing, hstep, Option.some_bind] at h
        have hnle : n ≤ s.capacity - s.occupancy :=
          le_trans hn (s.write_range_len_le hc hlt hr hw hocc)
        have hocc' := s.occupancy_advance_write n hr hw
          (by simp only [usizeSize] at *; omega)
        have := ih { s with write := (s.write + n) % usizeSize } s' hc hlt
          ⟨hr, Nat.mod_lt _ hM, by
            simp only [hocc']; show s.occupancy + n ≤ s.capacity; omega⟩ h
        exact ⟨this.1.trans rfl, this.2⟩
      · rw [runRing] at h
        simp [RingState.writer_consume, hn] at h

/-- C2: for every ring buffer created with power-of-two capacity
`c < usize::MAX / 2`, every interleaving of checked `Reader::consume` and
`Writer::consume` calls keeps the wrapping occupancy `write - read` between
`0` and `c`; at full occupancy the writer's peeked region is empty, and the
reader's peeked region is empty exactly when `read == write`. -/
theorem ring_buffer_occupancy_invariant (c k : Nat) (ops : List RingOp)
    (s' : RingState) (hc : c = 2 ^ k) (hlt : c < 2 ^ 63)
    (hrun : runRing (initRing c) ops = some s') :
    s'.occupancy ≤ c ∧
    (s'.occupancy = c → rangeLen s'.write_range = 0) ∧
    (rangeLen s'.read_range = 0 ↔ s'.read = s'.write) := by
  have hocc0 : (initRing c).occupancy = 0 := by
    simp [initRing, RingState.occupancy, usizeSize]
  have hinv0 : RingInv (initRing c) := by
    refine ⟨by simp [initRing, usizeSize], by simp [initRing, usizeSize], ?_⟩
    omega
  obtain ⟨hcap, _, _, hocc⟩ :=
    runRing_preserves (k := k) ops (initRing c) s' hc hlt hinv0 hrun
  have hcap' : s'.capacity = c := hcap
  refine ⟨by omega, fun hfull => s'.write_range_len_of_full (by omega), ?_⟩
  exact s'.read_range_len_eq_zero_iff (k := k) (by omega)

/-- Witness for C2 at capacity 8 with a concrete valid interleaving. -/
theorem ring_buffer_occupancy_invariant_witness :
    (⟨8, 8, 8⟩ : RingState).occupancy ≤ 8 ∧
    ((⟨8, 8, 8⟩ : RingState).occupancy = 8 →
      rangeLen (⟨8, 8, 8⟩ : RingState).write_range = 0) ∧
    (rangeLen (⟨8, 8, 8⟩ : RingState).read_range = 0 ↔
      (⟨8, 8, 8⟩ : RingState).read = (⟨8, 8, 8⟩ : RingState).write) :=
  ring_buffer_occupancy_invariant 8 3
    [.writerConsume 5, .readerConsume 3, .writerConsume 3, .readerConsume 5]
    ⟨8, 8, 8⟩ (by norm_num) (by norm_num) (by decide)

/-! ## Async ring buffer (`src/mrvn-back-ytdl/src/async_ring_buffer.rs`) -/

/-- Result of polling a future once. -/
inductive Poll where
  | ready
  | pending
deriving DecidableEq

/-- `AsyncWriter::poll_flush`: returns ready when `self.writer.buffer()` is
empty, otherwise registers the space waker, re-checks the (unchanged) cursor
state, and returns pending.  The waker registration between the two checks
does not touch the ring cursors, so both checks read the same state. -/
def poll_flush (s : RingState) : Poll :=
  if rangeLen s.write_range = 0 then .ready
  else if rangeLen s.write_range = 0 then .ready
  else .pending

/-- C6 counterexample: on a fresh ring of capacity 4 the writable region is
non-empty yet `poll_flush` returns pending, and on a full ring the writable
region is empty yet `poll_flush` returns ready — the opposite of the claimed
"ready iff the writable region is non-empty". -/
theorem poll_flush_counterexample :
    rangeLen (initRing 4).write_range ≠ 0 ∧
    poll_flush (initRing 4) = .pending ∧
    rangeLen (⟨4, 0, 4⟩ : RingState).write_range = 0 ∧
    poll_flush (⟨4, 0, 4⟩ : RingState) = .ready := by
  decide

/-- C6 amended: `poll_flush` is ready exactly when the writable region is
empty (the ring is full), and pending otherwise. -/
theorem poll_flush_ready_iff (s : RingState) :
    poll_flush s = .ready ↔ rangeLen s.write_range = 0 := by
  unfold poll_flush
  split
  · simp_all
  · simp_all

/-- C10: checked `consume` panics (models as `none`) exactly when the length
exceeds the peeked region, otherwise advances the cursor by exactly `len`;
under the peek precondition the read cursor never passes the write cursor
(occupancy drops by exactly `len`) and the write cursor never runs more than
`capacity` ahead (occupancy grows by exactly `len`, staying at most
`capacity`). -/
theorem consume_guarded (s : RingState) (k n : Nat)
    (hc : s.capacity = 2 ^ k) (hlt : s.capacity < 2 ^ 63) (hinv : RingInv s) :
    (rangeLen s.read_range < n → s.reader_consume n = none) ∧
    (rangeLen s.write_range < n → s.writer_consume n = none) ∧
    (n ≤ rangeLen s.read_range →
      s.reader_consume n = some { s with read := (s.read + n) % usizeSize } ∧
      RingState.occupancy { s with read := (s.read + n) % usizeSize } =
        s.occupancy - n ∧
      RingState.occupancy { s with read := (s.read + n) % usizeSize } ≤
        s.capacity) ∧
    (n ≤ rangeLen s.write_range →
      s.writer_consume n = some { s with write := (s.write + n) % usizeSize } ∧
      RingState.occupancy { s with write := (s.write + n) % usizeSize } =
        s.occupancy + n ∧
      RingState.occupancy { s with write := (s.write + n) % usizeSize } ≤
        s.capacity) := by
  obtain ⟨hr, hw, hocc⟩ := hinv
  refine ⟨fun h => ?_, fun h => ?_, fun h => ?_, fun h => ?_⟩
  · rw [RingState.reader_consume, if_neg (by omega)]
  · rw [RingState.writer_consume, if_neg (by omega)]
  · have hnle : n ≤ s.occupancy :=
      le_trans h (s.read_range_len_le hc hlt hr hw hocc)
    have hocc' := s.occupancy_advance_read n hr hw hnle
    exact ⟨by rw [RingState.reader_consume, if_pos h], hocc', by omega⟩
  · have hnle : n ≤ s.capacity - s.occupancy :=
      le_trans h (s.write_range_len_le hc hlt hr hw hocc)
    have hocc' := s.occupancy_advance_write n hr hw
      (by simp only [usizeSize] at *; omega)
    exact ⟨by rw [RingState.writer_consume, if_pos h], hocc', by omega⟩

/-- Witness for C10 on a ring of capacity 8 with cursors 3 and 5. -/
theorem consume_guarded_witness :
    (rangeLen (⟨8, 3, 5⟩ : RingState).read_range < 2 →
      (⟨8, 3, 5⟩ : RingState).reader_consume 2 = none) ∧
    (rangeLen (⟨8, 3, 5⟩ : RingState).write_range < 2 →
      (⟨8, 3, 5⟩ : RingState).writer_consume 2 = none) ∧
    (2 ≤ rangeLen (⟨8, 3, 5⟩ : RingState).read_range →
      (⟨8, 3, 5⟩ : RingState).reader_consume 2 =
        some ⟨8, (3 + 2) % usizeSize, 5⟩ ∧
      RingState.occupancy ⟨8, (3 + 2) % usizeSize, 5⟩ =
        (⟨8, 3, 5⟩ : RingState).occupancy - 2 ∧
      RingState.occupancy ⟨8, (3 + 2) % usizeSize, 5⟩ ≤ 8) ∧
    (2 ≤ rangeLen (⟨8, 3, 5⟩ : RingState).write_range →
      (⟨8, 3, 5⟩ : RingState).writer_consume 2 =
        some ⟨8, 3, (5 + 2) % usizeSize⟩ ∧
      RingState.occupancy ⟨8, 3, (5 + 2) % usizeSize⟩ =
        (⟨8, 3, 5⟩ : RingState).occupancy + 2 ∧
      RingState.occupancy ⟨8, 3, (5 + 2) % usizeSize⟩ ≤ 8) :=
  consume_guarded ⟨8, 3, 5⟩ 3 2 rfl (by norm_num) (by unfold RingInv; decide)

/-! ## Guild queue model (`src/mrvn-model/src/guild_model.rs`)

`UserId`, `ChannelId` and `MessageId` are opaque snowflake identifiers; they
are modelled as `Nat`.  `HashSet<UserId>` is modelled as `Finset Nat` and
`HashMap<ChannelId, ChannelModel>` as an association list with unique keys.
The `message_channel`, `last_action_message` and `secret_streaks` fields of
`GuildModel` are carried by none of the queue/channel operations verified
here and are omitted from the state. -/

/-- `AppModelDelegate::is_user_in_voice_channel`. -/
def Delegate := Nat → Nat → Bool

structure AppModelConfig where
  skip_votes_required : Nat
  stop_votes_required : Nat
deriving DecidableEq

structure Queue (E : Type) where
  user_id : Nat
  entries : List E
deriving DecidableEq

inductive ChannelPlayingState where
  | notPlaying
  | stopped
  | playing (playing_user_id : Nat) (skip_votes : Finset Nat)
      (stop_votes : Finset Nat)
deriving DecidableEq

/-- `ChannelPlayingState::is_playing`. -/
def ChannelPlayingState.is_playing : ChannelPlayingState → Bool
  | .playing _ _ _ => true
  | _ => false

structure GuildModel (E : Type) where
  config : AppModelConfig
  queues : List (Queue E)
  channels : List (Nat × ChannelPlayingState)
deriving DecidableEq

inductive VoteType where
  | skip
  | stop
deriving DecidableEq

inductive VoteStatus where
  | success
  | alreadyVoted
  | needsMoreVotes (n : Nat)
  | nothingPlaying
deriving DecidableEq

inductive ReplaceStatus (E : Type) where
  | queued
  | replacedInQueue (entry : E)
  | replacedCurrent (channel_id : Nat)
deriving DecidableEq

inductive NextEntry (E : Type) where
  | noneAvailable
  | alreadyPlaying
  | entry (e : E)
deriving DecidableEq

/-- Free function `find_first_user_in_channel`. -/
def find_first_user_in_channel {E : Type} (queues : List (Queue E))
    (delegate : Delegate) (channel_id : Nat) : Option Nat :=
  (queues.find? fun queue => delegate queue.user_id channel_id).map
    (fun queue => queue.user_id)

/-- `HashMap::get` on the channel map. -/
def lookupChannel : List (Nat × ChannelPlayingState) → Nat →
    Option ChannelPlayingState
  | [], _ => none
  | (c, st) :: rest, channel_id =>
    if c = channel_id then some st else lookupChannel rest channel_id

/-- `create_channel` followed by overwriting the playing state: inserts the
key when absent, otherwise replaces the stored state. -/
def setChannel : List (Nat × ChannelPlayingState) → Nat →
    ChannelPlayingState → List (Nat × ChannelPlayingState)
  | [], channel_id, st => [(channel_id, st)]
  | (c, st') :: rest, channel_id, st =>
    if c = channel_id then (c, st) :: rest
    else (c, st') :: setChannel rest channel_id st

/-- In-place mutation through `get_channel_playing_state_mut`: maps the state
of an existing key, inserting nothing when the key is absent. -/
def updateChannel : List (Nat × ChannelPlayingState) → Nat →
    (ChannelPlayingState → ChannelPlayingState) →
    List (Nat × ChannelPlayingState)
  | [], _, _ => []
  | (c, st) :: rest, channel_id, f =>
    if c = channel_id then (c, f st) :: rest
    else (c, st) :: updateChannel rest channel_id f

/-- `GuildModel::get_channel_playing_state`. -/
def GuildModel.get_channel_playing_state {E : Type} (m : GuildModel E)
    (channel_id : Nat) : Option ChannelPlayingState :=
  lookupChannel m.channels channel_id

/-- `GuildModel::is_channel_stopped`. -/
def GuildModel.is_channel_stopped {E : Type} (m : GuildModel E)
    (channel_id : Nat) : Bool :=
  match m.get_channel_playing_state channel_id with
  | some .stopped => true
  | _ => false

/-- `GuildModel::set_channel_stopped`. -/
def GuildModel.set_channel_stopped {E : Type} (m : GuildModel E)
    (channel_id : Nat) : GuildModel E :=
  { m with channels := setChannel m.channels channel_id .stopped }

/-- `GuildModel::get_channel_playing_user`. -/
def GuildModel.get_channel_playing_user {E : Type} (m : GuildModel E)
    (channel_id : Nat) : Option Nat :=
  match m.get_channel_playing_state channel_id with
  | some (.playing user_id _ _) => some user_id
  | _ => none

/-- `create_user_queue` followed by `push_back` of every entry: appends to an
existing queue, or pushes a fresh queue slot at the end of the round-robin
order. -/
def pushEntriesQueues {E : Type} : List (Queue E) → Nat → List E →
    List (Queue E)
  | [], user_id, entries => [⟨user_id, entries⟩]
  | q :: rest, user_id, entries =>
    if q.user_id = user_id then { q with entries := q.entries ++ entries } :: rest
    else q :: pushEntriesQueues rest user_id entries

/-- `GuildModel::push_entries`. -/
def GuildModel.push_entries {E : Type} (m : GuildModel E) (user_id : Nat)
    (entries : List E) : GuildModel E :=
  { m with queues := pushEntriesQueues m.queues user_id entries }

/-- `create_user_queue` + `pop_back` + `push_back` for `replace_entry`:
returns the updated queues and the removed tail entry. -/
def replaceQueues {E : Type} : List (Queue E) → Nat → E →
    List (Queue E) × Option E
  | [], user_id, entry => ([⟨user_id, [entry]⟩], none)
  | q :: rest, user_id, entry =>
    if q.user_id = user_id then
      ({ q with entries := q.entries.dropLast ++ [entry] } :: rest,
        q.entries.getLast?)
    else
      let (rest', removed) := replaceQueues rest user_id entry
      (q :: rest', removed)

/-- `GuildModel::replace_entry`. -/
def GuildModel.replace_entry {E : Type} (m : GuildModel E) (user_id : Nat)
    (maybe_channel_id : Option Nat) (entry : E) :
    ReplaceStatus E × GuildModel E :=
  let res := replaceQueues m.queues user_id entry
  let m' : GuildModel E := { m with queues := res.1 }
  match res.2 with
  | some removed => (.replacedInQueue removed, m')
  | none =>
    match maybe_channel_id with
    | some channel_id =>
      if m'.get_channel_playing_user channel_id = some user_id then
        (.replacedCurrent channel_id, m')
      else (.queued, m')
    | none => (.queued, m')

/-- `get_user_queue_mut` + `VecDeque::pop_front`: pops the head entry of the
first queue belonging to the user; `none` when the user has no queue or the
queue is empty (the `?` early returns in the source). -/
def popFirstEntry {E : Type} : List (Queue E) → Nat →
    Option (E × List (Queue E))
  | [], _ => none
  | q :: rest, user_id =>
    if q.user_id = user_id then
      match q.entries with
      | [] => none
      | e :: es => some (e, { q with entries := es } :: rest)
    else
      match popFirstEntry rest user_id with
      | none => none
      | some (e, rest') => some (e, q :: rest')

/-- `GuildModel::next_channel_entry_finished` (`advance_room_after_end`).

The channel is reset to `NotPlaying` up front (`std::mem::replace`), the
round-robin scan picks the next user, that user's head entry is popped, the
channel is set to `Playing` with empty vote sets, and finally empty queues
and non-playing channels are pruned.  The early `?` returns leave the model
with the channel already reset.  The implementation is split into named
pieces mirroring the source blocks: the round-robin user scan, and the
pop/transition/prune step. -/
def listPosition {E : Type} (user_id : Nat) : List (Queue E) → Option Nat
  | [] => none
  | q :: rest =>
    if q.user_id = user_id then some 0
    else (listPosition user_id rest).map (· + 1)

/-- The round-robin user scan of `next_channel_entry_finished`:
`listPosition` is `Iterator::position` on the queue list. -/
def nextUserScan {E : Type} (delegate : Delegate) (queues : List (Queue E))
    (old_playing_state : ChannelPlayingState) (channel_id : Nat) : Option Nat :=
  match old_playing_state with
  | .playing user_id _ _ =>
    match listPosition user_id queues with
    | some last_playing_index =>
      find_first_user_in_channel
        (queues.drop (last_playing_index + 1) ++
          queues.take (last_playing_index + 1))
        delegate channel_id
    | none => find_first_user_in_channel queues delegate channel_id
  | _ => find_first_user_in_channel queues delegate channel_id

/-- The pop/transition/prune step of `next_channel_entry_finished`, applied
once a next user has been selected. -/
def GuildModel.advanceWithUser {E : Type} (m1 : GuildModel E)
    (channel_id user_id : Nat) : Option E × GuildModel E :=
  match popFirstEntry m1.queues user_id with
  | none => (none, m1)
  | some (next_entry, queues') =>
    (some next_entry,
      { m1 with
        queues := queues'.filter fun q => !q.entries.isEmpty,
        channels :=
          (setChannel m1.channels channel_id
            (.playing user_id ∅ ∅)).filter fun c => c.2.is_playing })

/-- Body of `GuildModel::next_channel_entry_finished`. -/
def GuildModel.next_channel_entry_finished {E : Type} (delegate : Delegate)
    (m : GuildModel E) (channel_id : Nat) : Option E × GuildModel E :=
  let old_playing_state := (lookupChannel m.channels channel_id).getD .notPlaying
  let m1 : GuildModel E :=
    { m with channels := setChannel m.channels channel_id .notPlaying }
  match nextUserScan delegate m1.queues old_playing_state channel_id with
  | none => (none, m1)
  | some user_id => m1.advanceWithUser channel_id user_id

/-- `GuildModel::next_channel_entry` (`advance_room`). -/
def GuildModel.next_channel_entry {E : Type} (delegate : Delegate)
    (m : GuildModel E) (channel_id : Nat) : NextEntry E × GuildModel E :=
  match m.get_channel_playing_state channel_id with
  | some (.playing _ _ _) => (.alreadyPlaying, m)
  | _ =>
    match m.next_channel_entry_finished delegate channel_id with
    | (some entry, m') => (.entry entry, m')
    | (none, m') => (.noneAvailable, m')

/-- `GuildModel::vote_for_skip`. -/
def GuildModel.vote_for_skip {E : Type} (delegate : Delegate)
    (m : GuildModel E) (vote_type : VoteType) (channel_id : Nat)
    (user_id : Nat) : VoteStatus × GuildModel E :=
  let votes_required :=
    match vote_type with
    | .skip => m.config.skip_votes_required
    | .stop => m.config.stop_votes_required
  match lookupChannel m.channels channel_id with
  | some (.playing playing_user_id skip_votes stop_votes) =>
    let votes :=
      match vote_type with
      | .skip => skip_votes
      | .stop => stop_votes
    if user_id = playing_user_id then (.success, m)
    else if !delegate playing_user_id channel_id then (.success, m)
    else if user_id ∈ votes then (.alreadyVoted, m)
    else if votes_required ≤ votes.card + 1 then (.success, m)
    else
      let votes' := insert user_id votes
      let new_state :=
        match vote_type with
        | .skip => ChannelPlayingState.playing playing_user_id votes' stop_votes
        | .stop => ChannelPlayingState.playing playing_user_id skip_votes votes'
      (.needsMoreVotes (votes_required - votes'.card),
        { m with channels := updateChannel m.channels channel_id fun _ => new_state })
  | _ => (.nothingPlaying, m)


/-! ### Queue membership invariant (C4) -/

/-- "A user appears in `user_queues` iff they have at least one pending
entry": since queues are stored per user, the content of the invariant is
that no stored queue slot is empty. -/
def QueueInvariant {E : Type} (m : GuildModel E) : Prop :=
  ∀ q ∈ m.queues, q.entries ≠ []

/-- One model operation, as listed in the claim. -/
inductive ModelOp (E : Type) where
  | push (user_id : Nat) (entries : List E)
  | replace (user_id : Nat) (maybe_channel_id : Option Nat) (entry : E)
  | advance (delegate : Delegate) (channel_id : Nat)
  | advanceAfterEnd (delegate : Delegate) (channel_id : Nat)
  | vote (delegate : Delegate) (vote_type : VoteType) (channel_id : Nat)
      (user_id : Nat)

/-- The state reached by one model operation. -/
def applyOp {E : Type} (m : GuildModel E) : ModelOp E → GuildModel E
  | .push u es => m.push_entries u es
  | .replace u mc e => (m.replace_entry u mc e).2
  | .advance d c => (GuildModel.next_channel_entry d m c).2
  | .advanceAfterEnd d c => (GuildModel.next_channel_entry_finished d m c).2
  | .vote d t c u => (GuildModel.vote_for_skip d m t c u).2

/-- The state reached by a sequence of model operations. -/
def runOps {E : Type} (m : GuildModel E) : List (ModelOp E) → GuildModel E
  | [] => m
  | op :: rest => runOps (applyOp m op) rest

/-- The restriction forced by the counterexample: pushes carry at least one
entry. -/
def OpPushesNonEmpty {E : Type} : ModelOp E → Prop
  | .push _ es => es ≠ []
  | _ => True

theorem mem_filter_nonempty {E : Type} (qs : List (Queue E)) (q : Queue E)
    (hq : q ∈ List.filter (fun q => !q.entries.isEmpty) qs) : q.entries ≠ [] := by
  have := (List.mem_filter.mp hq).2
  simpa using this

theorem pushEntriesQueues_invariant {E : Type} (qs : List (Queue E))
    (u : Nat) (es : List E) (hes : es ≠ [])
    (h : ∀ q ∈ qs, q.entries ≠ []) :
    ∀ q ∈ pushEntriesQueues qs u es, q.entries ≠ [] := by
  induction qs with
  | nil =>
    intro q hq
    simp only [pushEntriesQueues, List.mem_singleton] at hq
    subst hq; simpa using hes
  | cons q0 rest ih =>
    intro q hq
    rw [pushEntriesQueues] at hq
    split at hq
    · rcases List.mem_cons.mp hq with rfl | hq
      · intro hcontra
        exact hes (List.append_eq_nil.mp hcontra).2
      · exact h q (List.mem_cons_of_mem _ hq)
    · rcases List.mem_cons.mp hq with rfl | hq
      · exact h q (List.mem_cons_self _ _)
      · exact ih (fun q' hq' => h q' (List.mem_cons_of_mem _ hq')) q hq

theorem replaceQueues_invariant {E : Type} (qs : List (Queue E)) (u : Nat)
    (e : E) (h : ∀ q ∈ qs, q.entries ≠ []) :
    ∀ q ∈ (replaceQueues qs u e).1, q.entries ≠ [] := by
  induction qs with
  | nil =>
    intro q hq
    simp only [replaceQueues, List.mem_singleton] at hq
    subst hq; simp
  | cons q0 rest ih =>
    intro q hq
    rw [replaceQueues] at hq
    split at hq
    · rcases List.mem_cons.mp hq with rfl | hq
      · simp
      · exact h q (List.mem_cons_of_mem _ hq)
    · simp only [] at hq
      rcases List.mem_cons.mp hq with rfl | hq
      · exact h q (List.mem_cons_self _ _)
      · exact ih (fun q' hq' => h q' (List.mem_cons_of_mem _ hq')) q hq

/-- The queues of the state after `next_channel_entry_finished` are either
untouched or freshly pruned of empty slots. -/
theorem next_finished_queues {E : Type} (d : Delegate) (m : GuildModel E)
    (c : Nat) :
    (GuildModel.next_channel_entry_finished d m c).2.queues = m.queues ∨
    ∃ qs' : List (Queue E),
      (GuildModel.next_channel_entry_finished d m c).2.queues =
        List.filter (fun q => !q.entries.isEmpty) qs' := by
  rw [GuildModel.next_channel_entry_finished]
  split
  · exact Or.inl rfl
  · rw [GuildModel.advanceWithUser]
    split
    · exact Or.inl rfl
    · exact Or.inr ⟨_, rfl⟩

/-- `vote_for_skip` never touches the queues. -/
theorem vote_queues_eq {E : Type} (d : Delegate) (m : GuildModel E)
    (t : VoteType) (c u : Nat) :
    (GuildModel.vote_for_skip d m t c u).2.queues = m.queues := by
  cases t <;>
    (simp only [GuildModel.vote_for_skip]
     split
     · split_ifs <;> rfl
     · rfl)

/-- `replace_entry` produces exactly the queues of `replaceQueues`. -/
theorem replace_queues_eq {E : Type} (m : GuildModel E) (u : Nat)
    (mc : Option Nat) (e : E) :
    ((m.replace_entry u mc e).2).queues = (replaceQueues m.queues u e).1 := by
  simp only [GuildModel.replace_entry]
  split
  · rfl
  · split
    · split_ifs <;> rfl
    · rfl

theorem applyOp_queue_invariant {E : Type} (m : GuildModel E) (op : ModelOp E)
    (hm : QueueInvariant m) (hop : OpPushesNonEmpty op) :
    QueueInvariant (applyOp m op) := by
  cases op with
  | push u es =>
    exact pushEntriesQueues_invariant m.queues u es hop hm
  | replace u mc e =>
    intro q hq
    rw [applyOp, replace_queues_eq] at hq
    exact replaceQueues_invariant m.queues u e hm q hq
  | advance d c =>
    intro q hq
    rw [applyOp, GuildModel.next_channel_entry] at hq
    split at hq
    · exact hm q hq
    · split at hq
      · rename_i entry m' hfin
        rcases next_finished_queues d m c with hsame | ⟨qs', hfilter⟩
        · rw [hfin] at hsame
          exact hm q (hsame ▸ hq)
        · rw [hfin] at hfilter
          exact mem_filter_nonempty qs' q (hfilter ▸ hq)
      · rename_i m' hfin
        rcases next_finished_queues d m c with hsame | ⟨qs', hfilter⟩
        · rw [hfin] at hsame
          exact hm q (hsame ▸ hq)
        · rw [hfin] at hfilter
          exact mem_filter_nonempty qs' q (hfilter ▸ hq)
  | advanceAfterEnd d c =>
    intro q hq
    rw [applyOp] at hq
    rcases next_finished_queues d m c with hsame | ⟨qs', hfilter⟩
    · exact hm q (hsame ▸ hq)
    · exact mem_filter_nonempty qs' q (hfilter ▸ hq)
  | vote d t c u =>
    intro q hq
    rw [applyOp, vote_queues_eq] at hq
    exact hm q hq

/-- C4 amended: the queue-membership invariant is preserved by every sequence
of model operations, provided every `push` carries a non-empty entries list
(pushing an empty list creates an empty queue slot — the counterexample). -/
theorem queue_membership_invariant {E : Type} (m : GuildModel E)
    (ops : List (ModelOp E)) (hm : QueueInvariant m)
    (hops : ∀ op ∈ ops, OpPushesNonEmpty op) :
    QueueInvariant (runOps m ops) := by
  induction ops generalizing m with
  | nil => exact hm
  | cons op rest ih =>
    rw [runOps]
    exact ih (applyOp m op)
      (applyOp_queue_invariant m op hm (hops op (List.mem_cons_self _ _)))
      (fun op' hop' => hops op' (List.mem_cons_of_mem _ hop'))

/-- C4 counterexample: pushing an *empty* entries list for a fresh user
creates an empty queue slot, so the user appears in `user_queues` with no
pending entry. -/
theorem queue_membership_counterexample :
    QueueInvariant (⟨⟨2, 2⟩, [], []⟩ : GuildModel Nat) ∧
    (GuildModel.push_entries (⟨⟨2, 2⟩, [], []⟩ : GuildModel Nat) 1 []).queues =
      [⟨1, []⟩] ∧
    ¬ QueueInvariant
      (GuildModel.push_entries (⟨⟨2, 2⟩, [], []⟩ : GuildModel Nat) 1 []) := by
  refine ⟨fun q hq => absurd hq (by simp), rfl, fun h => ?_⟩
  exact h ⟨1, []⟩ (by
    rw [GuildModel.push_entries]
    exact List.mem_singleton.mpr rfl) rfl

/-- C4 witness: a concrete run of pushes, advances and votes keeps the
invariant. -/
theorem queue_membership_invariant_witness :
    QueueInvariant (runOps (⟨⟨2, 2⟩, [], []⟩ : GuildModel Nat)
      [.push 1 [10, 11], .push 2 [20],
       .advanceAfterEnd (fun _ _ => true) 5,
       .vote (fun _ _ => true) .skip 5 2,
       .advance (fun _ _ => true) 5]) :=
  queue_membership_invariant _ _ (fun q hq => absurd hq (by simp))
    (by
      intro op hop
      fin_cases hop <;> simp [OpPushesNonEmpty])

/-! ### Sticky stop (C5) -/

theorem lookupChannel_setChannel_ne (l : List (Nat × ChannelPlayingState))
    (c r : Nat) (st : ChannelPlayingState) (h : r ≠ c) :
    lookupChannel (setChannel l c st) r = lookupChannel l r := by
  induction l with
  | nil =>
    simp only [setChannel, lookupChannel]
    rw [if_neg (Ne.symm h)]
  | cons p rest ih =>
    obtain ⟨c0, st0⟩ := p
    rw [setChannel]
    by_cases hc0 : c0 = c
    · rw [if_pos hc0, lookupChannel, lookupChannel]
      subst hc0
      rw [if_neg (Ne.symm h), if_neg (Ne.symm h)]
    · rw [if_neg hc0, lookupChannel, lookupChannel]
      by_cases hcr : c0 = r
      · rw [if_pos hcr, if_pos hcr]
      · rw [if_neg hcr, if_neg hcr]
        exact ih

theorem lookupChannel_updateChannel_ne (l : List (Nat × ChannelPlayingState))
    (c r : Nat) (f : ChannelPlayingState → ChannelPlayingState) (h : r ≠ c) :
    lookupChannel (updateChannel l c f) r = lookupChannel l r := by
  induction l with
  | nil => rfl
  | cons p rest ih =>
    obtain ⟨c0, st0⟩ := p
    rw [updateChannel]
    by_cases hc0 : c0 = c
    · rw [if_pos hc0, lookupChannel, lookupChannel]
      subst hc0
      rw [if_neg (Ne.symm h), if_neg (Ne.symm h)]
    · rw [if_neg hc0, lookupChannel, lookupChannel]
      by_cases hcr : c0 = r
      · rw [if_pos hcr, if_pos hcr]
      · rw [if_neg hcr, if_neg hcr]
        exact ih

/-- Every entry surviving the `retain(is_playing)` prune holds a `Playing`
state. -/
theorem lookup_filter_playing (l : List (Nat × ChannelPlayingState)) (r : Nat) :
    ∀ st, lookupChannel (l.filter fun p => p.2.is_playing) r = some st →
      st.is_playing = true := by
  induction l with
  | nil => intro st h; cases h
  | cons q rest ih =>
    intro st h
    obtain ⟨c0, st0⟩ := q
    by_cases hp : st0.is_playing = true
    · simp only [List.filter, hp] at h
      rw [lookupChannel] at h
      split at h
      · cases h; exact hp
      · exact ih st h
    · have hp' : st0.is_playing = false := by simpa using hp
      simp only [List.filter, hp'] at h
      exact ih st h

/-- `is_channel_stopped` in terms of the channel lookup. -/
theorem is_channel_stopped_eq_true_iff {E : Type} (m : GuildModel E) (r : Nat) :
    m.is_channel_stopped r = true ↔
      lookupChannel m.channels r = some .stopped := by
  unfold GuildModel.is_channel_stopped GuildModel.get_channel_playing_state
  rcases hl : lookupChannel m.channels r with _ | st
  · simp [hl]
  · cases st <;> simp [hl]

/-- `is_channel_stopped` only reads the channel map. -/
theorem is_channel_stopped_ext {E : Type} (m m' : GuildModel E)
    (h : m'.channels = m.channels) (r : Nat) :
    m'.is_channel_stopped r = m.is_channel_stopped r := by
  unfold GuildModel.is_channel_stopped GuildModel.get_channel_playing_state
  rw [h]

/-- `replace_entry` never touches the channels. -/
theorem replace_channels_eq {E : Type} (m : GuildModel E) (u : Nat)
    (mc : Option Nat) (e : E) :
    ((m.replace_entry u mc e).2).channels = m.channels := by
  simp only [GuildModel.replace_entry]
  split
  · rfl
  · split
    · split_ifs <;> rfl
    · rfl

/-- The two possible outcomes of `next_channel_entry_finished`: an early
return with the channel merely reset, or a successful advance whose channel
map is freshly pruned to `Playing` entries. -/
theorem next_finished_cases {E : Type} (d : Delegate) (m : GuildModel E)
    (c : Nat) :
    ((GuildModel.next_channel_entry_finished d m c).1 = none ∧
      (GuildModel.next_channel_entry_finished d m c).2 =
        { m with channels := setChannel m.channels c .notPlaying }) ∨
    (∃ e u, (GuildModel.next_channel_entry_finished d m c).1 = some e ∧
      (GuildModel.next_channel_entry_finished d m c).2.channels =
        List.filter (fun p => p.2.is_playing)
          (setChannel (setChannel m.channels c .notPlaying) c
            (.playing u ∅ ∅))) := by
  simp only [GuildModel.next_channel_entry_finished]
  split
  · exact Or.inl ⟨rfl, rfl⟩
  · rename_i u hscan
    simp only [GuildModel.advanceWithUser]
    split
    · exact Or.inl ⟨rfl, rfl⟩
    · exact Or.inr ⟨_, u, rfl, rfl⟩

/-- The three possible outcomes of `next_channel_entry`. -/
theorem next_entry_cases {E : Type} (d : Delegate) (m : GuildModel E)
    (c : Nat) :
    GuildModel.next_channel_entry d m c = (.alreadyPlaying, m) ∨
    (∃ e, (GuildModel.next_channel_entry_finished d m c).1 = some e ∧
      GuildModel.next_channel_entry d m c =
        (.entry e, (GuildModel.next_channel_entry_finished d m c).2)) ∨
    ((GuildModel.next_channel_entry_finished d m c).1 = none ∧
      GuildModel.next_channel_entry d m c =
        (.noneAvailable, (GuildModel.next_channel_entry_finished d m c).2)) := by
  simp only [GuildModel.next_channel_entry]
  split
  · exact Or.inl rfl
  · split <;> rename_i heq
    · exact Or.inr (Or.inl ⟨_, by rw [heq], by rw [heq]⟩)
    · exact Or.inr (Or.inr ⟨by rw [heq], by rw [heq]⟩)

/-- A state whose channel map is a fresh `retain(is_playing)` prune reports
no channel as stopped. -/
theorem stopped_false_of_filter {E : Type} (m : GuildModel E) (r : Nat)
    (l : List (Nat × ChannelPlayingState))
    (hl : m.channels = l.filter fun p => p.2.is_playing) :
    m.is_channel_stopped r = false := by
  unfold GuildModel.is_channel_stopped GuildModel.get_channel_playing_state
  rcases hlook : lookupChannel m.channels r with _ | st
  · simp
  · have hpl := lookup_filter_playing l r st (by rw [← hl]; exact hlook)
    cases st <;> simp_all [ChannelPlayingState.is_playing]

/-- A vote never erases a `Stopped` channel state. -/
theorem vote_preserves_stopped {E : Type} (d : Delegate) (m : GuildModel E)
    (t : VoteType) (c u r : Nat) (h : m.is_channel_stopped r = true) :
    ((GuildModel.vote_for_skip d m t c u).2).is_channel_stopped r = true := by
  rw [is_channel_stopped_eq_true_iff] at h
  rw [is_channel_stopped_eq_true_iff]
  cases t <;>
    (simp only [GuildModel.vote_for_skip]
     split
     · rename_i pu sk stv hch
       have hrc : r ≠ c := by
         intro hc
         subst hc
         rw [h] at hch
         simp at hch
       split_ifs <;>
         first
         | exact h
         | (show lookupChannel (updateChannel m.channels c _) r = _
            rw [lookupChannel_updateChannel_ne _ _ _ _ hrc]
            exact h)
     · exact h)

/-- C5 amended: after `set_stopped(r)`, the stopped flag survives pushes,
replaces, votes, and advances on other rooms that return no entry; but a
*successful* advance (on any room, in particular on other rooms) prunes every
non-`Playing` channel state, erasing the stopped flag — the counterexample
forces this carve-out. -/
theorem sticky_stop_amended {E : Type} (m : GuildModel E) (r u cv v c : Nat)
    (es : List E) (mc : Option Nat) (e0 : E) (d : Delegate) (t : VoteType)
    (h : m.is_channel_stopped r = true) (hcr : c ≠ r) :
    ((m.push_entries u es).is_channel_stopped r = true) ∧
    (((m.replace_entry u mc e0).2).is_channel_stopped r = true) ∧
    (((GuildModel.vote_for_skip d m t cv v).2).is_channel_stopped r = true) ∧
    ((GuildModel.next_channel_entry_finished d m c).1 = none →
      ((GuildModel.next_channel_entry_finished d m c).2).is_channel_stopped r
        = true) ∧
    ((GuildModel.next_channel_entry_finished d m c).1 ≠ none →
      ((GuildModel.next_channel_entry_finished d m c).2).is_channel_stopped r
        = false) ∧
    ((GuildModel.next_channel_entry d m c).1 = .alreadyPlaying →
      ((GuildModel.next_channel_entry d m c).2).is_channel_stopped r = true) ∧
    ((GuildModel.next_channel_entry d m c).1 = .noneAvailable →
      ((GuildModel.next_channel_entry d m c).2).is_channel_stopped r = true) ∧
    ((GuildModel.next_channel_entry d m c).1 ≠ .alreadyPlaying →
      (GuildModel.next_channel_entry_finished d m c).1 ≠ none →
      ((GuildModel.next_channel_entry d m c).2).is_channel_stopped r =
        false) := by
  have hstop := (is_channel_stopped_eq_true_iff m r).mp h
  have hkeep : (GuildModel.next_channel_entry_finished d m c).1 = none →
      ((GuildModel.next_channel_entry_finished d m c).2).is_channel_stopped r
        = true := by
    intro hfn
    rcases next_finished_cases d m c with ⟨_, hf2⟩ | ⟨e, u', hf1, _⟩
    · rw [hf2, is_channel_stopped_eq_true_iff]
      show lookupChannel (setChannel m.channels c .notPlaying) r = _
      rw [lookupChannel_setChannel_ne _ _ _ _ (Ne.symm hcr)]
      exact hstop
    · rw [hfn] at hf1; cases hf1
  have hclear : (GuildModel.next_channel_entry_finished d m c).1 ≠ none →
      ((GuildModel.next_channel_entry_finished d m c).2).is_channel_stopped r
        = false := by
    intro hfs
    rcases next_finished_cases d m c with ⟨hf1, _⟩ | ⟨e, u', hf1, hf2⟩
    · exact absurd hf1 hfs
    · exact stopped_false_of_filter _ r _ hf2
  refine ⟨?_, ?_, ?_, hkeep, hclear, ?_, ?_, ?_⟩
  · exact (is_channel_stopped_ext _ m rfl r).trans h
  · exact (is_channel_stopped_ext m _ (replace_channels_eq m u mc e0) r).trans h
  · exact vote_preserves_stopped d m t cv v r h
  · intro h6
    rcases next_entry_cases d m c with hA | ⟨e, _, hE⟩ | ⟨_, hN⟩
    · rw [hA]; exact h
    · rw [hE] at h6; simp at h6
    · rw [hN] at h6; simp at h6
  · intro h7
    rcases next_entry_cases d m c with hA | ⟨e, _, hE⟩ | ⟨hfn, hN⟩
    · rw [hA] at h7; simp at h7
    · rw [hE] at h7; simp at h7
    · rw [hN]; exact hkeep hfn
  · intro h8a h8b
    rcases next_entry_cases d m c with hA | ⟨e, _, hE⟩ | ⟨hfn, _⟩
    · rw [hA] at h8a; exact absurd rfl h8a
    · rw [hE]; exact hclear h8b
    · exact absurd hfn h8b

/-- C5 counterexample: room 1 is stopped; a successful
`next_channel_entry_finished` on room 2 returns user 2's entry and, through
the `retain(is_playing)` prune, erases room 1's `Stopped` state. -/
theorem sticky_stop_counterexample :
    (GuildModel.set_channel_stopped
        (⟨⟨2, 2⟩, [⟨2, [20]⟩], []⟩ : GuildModel Nat) 1).is_channel_stopped 1
      = true ∧
    (GuildModel.next_channel_entry_finished (fun _ _ => true)
        (GuildModel.set_channel_stopped
          (⟨⟨2, 2⟩, [⟨2, [20]⟩], []⟩ : GuildModel Nat) 1) 2).1 = some 20 ∧
    ((GuildModel.next_channel_entry_finished (fun _ _ => true)
        (GuildModel.set_channel_stopped
          (⟨⟨2, 2⟩, [⟨2, [20]⟩], []⟩ : GuildModel Nat) 1) 2).2).is_channel_stopped
        1 = false := by
  decide

/-- C5 witness: a concrete stopped room surviving the non-advancing
operations. -/
theorem sticky_stop_amended_witness :
    ((GuildModel.push_entries
        (⟨⟨2, 2⟩, [⟨3, [30]⟩], [(1, .stopped)]⟩ : GuildModel Nat) 3
        [7]).is_channel_stopped 1 = true) ∧
    (((GuildModel.replace_entry
        (⟨⟨2, 2⟩, [⟨3, [30]⟩], [(1, .stopped)]⟩ : GuildModel Nat) 3 none
        9).2).is_channel_stopped 1 = true) ∧
    (((GuildModel.vote_for_skip (fun _ _ => true)
        (⟨⟨2, 2⟩, [⟨3, [30]⟩], [(1, .stopped)]⟩ : GuildModel Nat) .skip 1
        4).2).is_channel_stopped 1 = true) ∧
    ((GuildModel.next_channel_entry_finished (fun _ _ => true)
        (⟨⟨2, 2⟩, [⟨3, [30]⟩], [(1, .stopped)]⟩ : GuildModel Nat) 2).1 = none →
      ((GuildModel.next_channel_entry_finished (fun _ _ => true)
        (⟨⟨2, 2⟩, [⟨3, [30]⟩], [(1, .stopped)]⟩ : GuildModel Nat) 2).2).is_channel_stopped
          1 = true) ∧
    ((GuildModel.next_channel_entry_finished (fun _ _ => true)
        (⟨⟨2, 2⟩, [⟨3, [30]⟩], [(1, .stopped)]⟩ : GuildModel Nat) 2).1 ≠ none →
      ((GuildModel.next_channel_entry_finished (fun _ _ => true)
        (⟨⟨2, 2⟩, [⟨3, [30]⟩], [(1, .stopped)]⟩ : GuildModel Nat) 2).2).is_channel_stopped
          1 = false) ∧
    ((GuildModel.next_channel_entry (fun _ _ => true)
        (⟨⟨2, 2⟩, [⟨3, [30]⟩], [(1, .stopped)]⟩ : GuildModel Nat) 2).1 =
        .alreadyPlaying →
      ((GuildModel.next_channel_entry (fun _ _ => true)
        (⟨⟨2, 2⟩, [⟨3, [30]⟩], [(1, .stopped)]⟩ : GuildModel Nat) 2).2).is_channel_stopped
          1 = true) ∧
    ((GuildModel.next_channel_entry (fun _ _ => true)
        (⟨⟨2, 2⟩, [⟨3, [30]⟩], [(1, .stopped)]⟩ : GuildModel Nat) 2).1 =
        .noneAvailable →
      ((GuildModel.next_channel_entry (fun _ _ => true)
        (⟨⟨2, 2⟩, [⟨3, [30]⟩], [(1, .stopped)]⟩ : GuildModel Nat) 2).2).is_channel_stopped
          1 = true) ∧
    ((GuildModel.next_channel_entry (fun _ _ => true)
        (⟨⟨2, 2⟩, [⟨3, [30]⟩], [(1, .stopped)]⟩ : GuildModel Nat) 2).1 ≠
        .alreadyPlaying →
      (GuildModel.next_channel_entry_finished (fun _ _ => true)
        (⟨⟨2, 2⟩, [⟨3, [30]⟩], [(1, .stopped)]⟩ : GuildModel Nat) 2).1 ≠ none →
      ((GuildModel.next_channel_entry (fun _ _ => true)
        (⟨⟨2, 2⟩, [⟨3, [30]⟩], [(1, .stopped)]⟩ : GuildModel Nat) 2).2).is_channel_stopped
          1 = false) :=
  sticky_stop_amended (⟨⟨2, 2⟩, [⟨3, [30]⟩], [(1, .stopped)]⟩ : GuildModel Nat)
    1 3 1 4 2 [7] none 9 (fun _ _ => true) .skip (by decide) (by decide)

/-! ### Vote procedure (C3) -/

theorem lookupChannel_updateChannel_self (l : List (Nat × ChannelPlayingState))
    (c : Nat) (f : ChannelPlayingState → ChannelPlayingState) :
    lookupChannel (updateChannel l c f) c = (lookupChannel l c).map f := by
  induction l with
  | nil => rfl
  | cons p rest ih =>
    obtain ⟨c0, st0⟩ := p
    rw [updateChannel]
    by_cases hc0 : c0 = c
    · rw [if_pos hc0, lookupChannel, lookupChannel, if_pos hc0, if_pos hc0]
      rfl
    · rw [if_neg hc0, lookupChannel, lookupChannel, if_neg hc0, if_neg hc0]
      exact ih

/-- C3 amended: on a playing room whose requester is present and distinct
from the voter, `vote_for_skip` returns `AlreadyVoted` on a duplicate,
`Success` *without recording the vote* when the would-be total reaches the
threshold (so an identical repeated vote returns `Success` again), and
otherwise records the vote and returns `NeedsMoreVotes(threshold − new
total)`, after which a repeated vote returns `AlreadyVoted`. -/
theorem vote_for_skip_behavior {E : Type} (d : Delegate) (m : GuildModel E)
    (t : VoteType) (c u pu : Nat) (sk st votes : Finset Nat) (required : Nat)
    (new_state : ChannelPlayingState)
    (hch : lookupChannel m.channels c = some (.playing pu sk st))
    (hcase :
      (t = .skip ∧ required = m.config.skip_votes_required ∧ votes = sk ∧
        new_state = .playing pu (insert u sk) st) ∨
      (t = .stop ∧ required = m.config.stop_votes_required ∧ votes = st ∧
        new_state = .playing pu sk (insert u st)))
    (hne : u ≠ pu) (hpres : d pu c = true) :
    (u ∈ votes → GuildModel.vote_for_skip d m t c u = (.alreadyVoted, m)) ∧
    (u ∉ votes → required ≤ votes.card + 1 →
      GuildModel.vote_for_skip d m t c u = (.success, m) ∧
      GuildModel.vote_for_skip d ((GuildModel.vote_for_skip d m t c u).2) t c u
        = (.success, m)) ∧
    (u ∉ votes → votes.card + 1 < required →
      (GuildModel.vote_for_skip d m t c u).1 =
        .needsMoreVotes (required - (votes.card + 1)) ∧
      lookupChannel (GuildModel.vote_for_skip d m t c u).2.channels c =
        some new_state ∧
      (GuildModel.vote_for_skip d
          ((GuildModel.vote_for_skip d m t c u).2) t c u).1 =
        .alreadyVoted) := by
  have hpres' : (!d pu c) = false := by rw [hpres]; rfl
  rcases hcase with ⟨rfl, rfl, rfl, rfl⟩ | ⟨rfl, rfl, rfl, rfl⟩
  · refine ⟨fun hmem => ?_, fun hnm hc => ?_, fun hnm hlt => ?_⟩
    · simp only [GuildModel.vote_for_skip, hch, if_neg hne, hpres',
        Bool.false_eq_true, if_false, if_pos hmem]
    · have h1 : GuildModel.vote_for_skip d m .skip c u = (.success, m) := by
        simp only [GuildModel.vote_for_skip, hch, if_neg hne, hpres',
          Bool.false_eq_true, if_false, if_neg hnm, if_pos hc]
      exact ⟨h1, by rw [h1]; exact h1⟩
    · have hcard : (insert u votes).card = votes.card + 1 :=
        Finset.card_insert_of_not_mem hnm
      have hnotle : ¬ m.config.skip_votes_required ≤ votes.card + 1 := by
        omega
      have h1 : GuildModel.vote_for_skip d m .skip c u =
          (.needsMoreVotes
              (m.config.skip_votes_required - (insert u votes).card),
            ⟨m.config, m.queues,
              updateChannel m.channels c
                (fun _ => .playing pu (insert u votes) st)⟩) := by
        simp only [GuildModel.vote_for_skip, hch, if_neg hne, hpres',
          Bool.false_eq_true, if_false, if_neg hnm, if_neg hnotle]
      have hlook2 : lookupChannel (updateChannel m.channels c
          (fun _ => ChannelPlayingState.playing pu (insert u votes) st)) c =
          some (.playing pu (insert u votes) st) := by
        rw [lookupChannel_updateChannel_self, hch]
        rfl
      have hlook : lookupChannel
          (GuildModel.vote_for_skip d m .skip c u).2.channels c =
          some (.playing pu (insert u votes) st) := by
        rw [h1]
        exact hlook2
      refine ⟨by rw [h1, hcard], hlook, ?_⟩
      rw [h1]
      simp only [GuildModel.vote_for_skip, hlook2, if_neg hne, hpres',
        Bool.false_eq_true, if_false,
        if_pos (Finset.mem_insert_self u votes)]
  · refine ⟨fun hmem => ?_, fun hnm hc => ?_, fun hnm hlt => ?_⟩
    · simp only [GuildModel.vote_for_skip, hch, if_neg hne, hpres',
        Bool.false_eq_true, if_false, if_pos hmem]
    · have h1 : GuildModel.vote_for_skip d m .stop c u = (.success, m) := by
        simp only [GuildModel.vote_for_skip, hch, if_neg hne, hpres',
          Bool.false_eq_true, if_false, if_neg hnm, if_pos hc]
      exact ⟨h1, by rw [h1]; exact h1⟩
    · have hcard : (insert u votes).card = votes.card + 1 :=
        Finset.card_insert_of_not_mem hnm
      have hnotle : ¬ m.config.stop_votes_required ≤ votes.card + 1 := by
        omega
      have h1 : GuildModel.vote_for_skip d m .stop c u =
          (.needsMoreVotes
              (m.config.stop_votes_required - (insert u votes).card),
            ⟨m.config, m.queues,
              updateChannel m.channels c
                (fun _ => .playing pu sk (insert u votes))⟩) := by
        simp only [GuildModel.vote_for_skip, hch, if_neg hne, hpres',
          Bool.false_eq_true, if_false, if_neg hnm, if_neg hnotle]
      have hlook2 : lookupChannel (updateChannel m.channels c
          (fun _ => ChannelPlayingState.playing pu sk (insert u votes))) c =
          some (.playing pu sk (insert u votes)) := by
        rw [lookupChannel_updateChannel_self, hch]
        rfl
      have hlook : lookupChannel
          (GuildModel.vote_for_skip d m .stop c u).2.channels c =
          some (.playing pu sk (insert u votes)) := by
        rw [h1]
        exact hlook2
      refine ⟨by rw [h1, hcard], hlook, ?_⟩
      rw [h1]
      simp only [GuildModel.vote_for_skip, hlook2, if_neg hne, hpres',
        Bool.false_eq_true, if_false,
        if_pos (Finset.mem_insert_self u votes)]

/-- C3 counterexample: with `skip_votes_required = 2` and room 5 playing user
1's entry (user 1 present), user 2's vote yields `NeedsMoreVotes 1`; user 3's
vote then yields `Success` *without inserting user 3 into the vote set* (the
model is unchanged), so user 3 voting again yields `Success` once more —
never `AlreadyVoted`. -/
theorem vote_counterexample :
    (GuildModel.vote_for_skip (fun _ _ => true)
        (⟨⟨2, 2⟩, [], [(5, .playing 1 ∅ ∅)]⟩ : GuildModel Nat) .skip 5 2).1
      = .needsMoreVotes 1 ∧
    GuildModel.vote_for_skip (fun _ _ => true)
        ((GuildModel.vote_for_skip (fun _ _ => true)
          (⟨⟨2, 2⟩, [], [(5, .playing 1 ∅ ∅)]⟩ : GuildModel Nat) .skip 5 2).2)
        .skip 5 3
      = (.success,
        (GuildModel.vote_for_skip (fun _ _ => true)
          (⟨⟨2, 2⟩, [], [(5, .playing 1 ∅ ∅)]⟩ : GuildModel Nat) .skip 5 2).2) ∧
    (GuildModel.vote_for_skip (fun _ _ => true)
        ((GuildModel.vote_for_skip (fun _ _ => true)
          ((GuildModel.vote_for_skip (fun _ _ => true)
            (⟨⟨2, 2⟩, [], [(5, .playing 1 ∅ ∅)]⟩ : GuildModel Nat) .skip 5 2).2)
          .skip 5 3).2)
        .skip 5 3).1 = .success ∧
    VoteStatus.success ≠ VoteStatus.alreadyVoted := by
  decide

/-- C3 witness: the amended vote behaviour at a concrete playing room. -/
theorem vote_for_skip_behavior_witness :
    ((2 : Nat) ∈ (∅ : Finset Nat) →
      GuildModel.vote_for_skip (fun _ _ => true)
        (⟨⟨2, 2⟩, [], [(5, .playing 1 ∅ ∅)]⟩ : GuildModel Nat) .skip 5 2 =
        (.alreadyVoted, (⟨⟨2, 2⟩, [], [(5, .playing 1 ∅ ∅)]⟩ : GuildModel Nat))) ∧
    ((2 : Nat) ∉ (∅ : Finset Nat) → 2 ≤ (∅ : Finset Nat).card + 1 →
      GuildModel.vote_for_skip (fun _ _ => true)
        (⟨⟨2, 2⟩, [], [(5, .playing 1 ∅ ∅)]⟩ : GuildModel Nat) .skip 5 2 =
        (.success, (⟨⟨2, 2⟩, [], [(5, .playing 1 ∅ ∅)]⟩ : GuildModel Nat)) ∧
      GuildModel.vote_for_skip (fun _ _ => true)
        ((GuildModel.vote_for_skip (fun _ _ => true)
          (⟨⟨2, 2⟩, [], [(5, .playing 1 ∅ ∅)]⟩ : GuildModel Nat) .skip 5 2).2)
        .skip 5 2 =
        (.success, (⟨⟨2, 2⟩, [], [(5, .playing 1 ∅ ∅)]⟩ : GuildModel Nat))) ∧
    ((2 : Nat) ∉ (∅ : Finset Nat) → (∅ : Finset Nat).card + 1 < 2 →
      (GuildModel.vote_for_skip (fun _ _ => true)
        (⟨⟨2, 2⟩, [], [(5, .playing 1 ∅ ∅)]⟩ : GuildModel Nat) .skip 5 2).1 =
        .needsMoreVotes (2 - ((∅ : Finset Nat).card + 1)) ∧
      lookupChannel (GuildModel.vote_for_skip (fun _ _ => true)
        (⟨⟨2, 2⟩, [], [(5, .playing 1 ∅ ∅)]⟩ : GuildModel Nat) .skip 5 2).2.channels
        5 = some (.playing 1 (insert 2 ∅) ∅) ∧
      (GuildModel.vote_for_skip (fun _ _ => true)
        ((GuildModel.vote_for_skip (fun _ _ => true)
          (⟨⟨2, 2⟩, [], [(5, .playing 1 ∅ ∅)]⟩ : GuildModel Nat) .skip 5 2).2)
        .skip 5 2).1 = .alreadyVoted) :=
  vote_for_skip_behavior (fun _ _ => true)
    (⟨⟨2, 2⟩, [], [(5, .playing 1 ∅ ∅)]⟩ : GuildModel Nat) .skip 5 2 1 ∅ ∅ ∅ 2
    (.playing 1 (insert 2 ∅) ∅) rfl (Or.inl ⟨rfl, rfl, rfl, rfl⟩)
    (by decide) rfl

/-! ## HLS segment stream first emission
(`src/mrvn-back-ytdl/src/input/hls/media_segment_stream.rs`)

Segment durations are `f32` in the source; every value appearing in the
claim's scenario (durations of 6, totals up to 60) is exactly representable,
so durations are modelled as rationals.  `target_duration` is the `u64`
`#EXT-X-TARGETDURATION` value. -/

/-- The fused filter of `segment_list_stream` on the *first* refresh
(`last_seen_sequence == None`): walk the segments with their sequence
numbers and running start times, keeping a segment when
`end_list || segment_start_time + segment.duration >= min_end_secs`. -/
def firstEmissionAux (min_end_secs : ℚ) (end_list : Bool) :
    Nat → ℚ → List ℚ → List Nat
  | _, _, [] => []
  | seq, start_time, duration :: rest =>
    if end_list || start_time + duration ≥ min_end_secs then
      seq :: firstEmissionAux min_end_secs end_list (seq + 1)
        (start_time + duration) rest
    else
      firstEmissionAux min_end_secs end_list (seq + 1)
        (start_time + duration) rest

/-- Sequence numbers emitted by the first refresh of
`segment_list_stream`: `min_end_secs` is the total playlist duration less
three target durations, and segments are numbered from `media_sequence`. -/
def firstEmission (target_duration : Nat) (end_list : Bool)
    (media_sequence : Nat) (durations : List ℚ) : List Nat :=
  firstEmissionAux (durations.sum - 3 * (target_duration : ℚ)) end_list
    media_sequence 0 durations

/-- C7 counterexample: ten 6-second segments with `target_duration = 6` and
`end_list = false`: segment 7 ends exactly at `60 − 18 = 42`, and the filter
keeps segments whose end is `≥ 42`, so the first emission is `[7, 8, 9, 10]`,
not `[8, 9, 10]`. -/
theorem hls_first_emission_counterexample :
    firstEmission 6 false 1 (List.replicate 10 (6 : ℚ)) = [7, 8, 9, 10] ∧
    firstEmission 6 false 1 (List.replicate 10 (6 : ℚ)) ≠ [8, 9, 10] := by
  have h : firstEmission 6 false 1 (List.replicate 10 (6 : ℚ)) =
      [7, 8, 9, 10] := by
    norm_num [firstEmission, firstEmissionAux, List.replicate]
  refine ⟨h, ?_⟩
  rw [h]
  simp

/-- C7 amended: on the scenario playlist the first emission keeps exactly
segments 7–10 (those whose end time reaches `total − 3·target = 42`), and a
playlist with `end_list = true` is always delivered in full. -/
theorem hls_first_emission :
    firstEmission 6 false 1 (List.replicate 10 (6 : ℚ)) = [7, 8, 9, 10] ∧
    ∀ (target_duration media_sequence : Nat) (durations : List ℚ),
      firstEmission target_duration true media_sequence durations =
        List.range' media_sequence durations.length := by
  constructor
  · norm_num [firstEmission, firstEmissionAux, List.replicate]
  · intro t ms durs
    rw [firstEmission]
    generalize durs.sum - 3 * (t : ℚ) = minEnd
    generalize (0 : ℚ) = start
    induction durs generalizing ms start with
    | nil => rfl
    | cons dur rest ih =>
      rw [firstEmissionAux, if_pos (by simp)]
      rw [List.length_cons, List.range'_succ, ih]

/-! ## Extractor line parsing (`src/mrvn-back-ytdl/src/song.rs`,
`src/mrvn-back-ytdl/src/error.rs`)

The `Error` enum keeps the payloads that matter to the claims (`Parse`
carries the offending line, `Ytdl` carries extractor text); payloads of
wrapped external error types are dropped.  Strings are modelled as character
lists (`List Char`) so that `trim` and `starts_with` stay kernel-executable;
JSON deserialization is external (`serde_json`), so `parse_ytdl_line` is
parameterised by it. -/

inductive Error where
  | io
  | runtime
  | parse (value : List Char)
  | ytdl (text : List Char)
  | http
  | songbirdJoin
  | songbirdControl
  | symphonia
  | rubatoConstruction
  | rubato
  | unsupportedUrl
  | noDataProvided
  | noTracks
  | scanTimedOut
deriving DecidableEq

/-- `str::trim`: strip whitespace from both ends. -/
def trimChars (l : List Char) : List Char :=
  ((l.dropWhile Char.isWhitespace).reverse.dropWhile Char.isWhitespace).reverse

/-- The fields of `YtdlOutput` deserialized from one extractor line. -/
structure YtdlOutput where
  title : List Char
  webpage_url : List Char
  url : List Char
  thumbnail : Option (List Char)
  http_headers : List (List Char × List Char)
  duration : Option ℚ
deriving DecidableEq

structure SongMetadata where
  title : List Char
  url : List Char
  thumbnail_url : Option (List Char)
  duration_seconds : Option ℚ
  user_id : Nat
deriving DecidableEq

structure Song where
  metadata : SongMetadata
  download_url : List Char
  http_headers : List (List Char × List Char)
deriving DecidableEq

/-- `parse_ytdl_line`: trims the line, fails with `Error::UnsupportedUrl`
when it starts with `"ERROR:"`, otherwise deserializes it (failure is
`Error::Parse` carrying the trimmed line) and builds the `Song`, normalizing
a duration of exactly 0 to `None`.  (The random `id: Uuid` is omitted.) -/
def parse_ytdl_line (jsonParse : List Char → Option YtdlOutput)
    (line : List Char) (user_id : Nat) : Except Error Song :=
  let trimmed_line := trimChars line
  if "ERROR:".toList.isPrefixOf trimmed_line then .error .unsupportedUrl
  else
    match jsonParse trimmed_line with
    | none => .error (.parse trimmed_line)
    | some value =>
      .ok
        { metadata :=
            { title := value.title
              url := value.webpage_url
              thumbnail_url := value.thumbnail
              duration_seconds :=
                if value.duration = some 0 then none else value.duration
              user_id := user_id }
          download_url := value.url
          http_headers := value.http_headers }

/-- C8 counterexample: the line `"ERROR: boom"` fails with
`Error::UnsupportedUrl`, not with an extractor-error kind (`Ytdl`) carrying
`"boom"`. -/
theorem extractor_error_counterexample :
    parse_ytdl_line (fun _ => none) "ERROR: boom".toList 1 =
      .error .unsupportedUrl ∧
    (Except.error Error.unsupportedUrl : Except Error Song) ≠
      .error (.ytdl "boom".toList) := by
  constructor
  · rfl
  · intro h
    simp at h

/-- C8 amended: every line whose trimmed form starts with `"ERROR:"` fails
with `Error::UnsupportedUrl` (which carries no text), regardless of the
deserializer. -/
theorem extractor_error_parsing (jsonParse : List Char → Option YtdlOutput)
    (line : List Char) (user_id : Nat)
    (h : "ERROR:".toList.isPrefixOf (trimChars line) = true) :
    parse_ytdl_line jsonParse line user_id = .error .unsupportedUrl := by
  rw [parse_ytdl_line]
  simp only [h, if_true]

/-- C8 witness at the concrete line `"ERROR: boom"`. -/
theorem extractor_error_parsing_witness :
    parse_ytdl_line (fun _ => none) "ERROR: boom".toList 1 =
      .error .unsupportedUrl :=
  extractor_error_parsing (fun _ => none) "ERROR: boom".toList 1 (by decide)

/-! ## MPEG-TS reader readiness (`src/mrvn-back-ytdl/src/formats/mpegts.rs`)

`MpegTsReader::try_new` is a loop around `source.read` and `demux.push`; the
demultiplexer is external (`mpeg2ts_reader`), so its effect on the context is
supplied with each read event.  The context carries the fields the loop
condition reads: the announced ADTS stream count, the started flag, and the
created tracks. -/

structure DemuxCtx where
  stream_count : Nat
  has_started_any_stream : Bool
  tracks : List Nat
deriving DecidableEq

/-- One `source.read` outcome: `Ok(read_bytes)` together with the context
state after `demux.push` of those bytes (`read_bytes = 0` is bare EOF and
pushes nothing), or a read error. -/
inductive ReadEvent where
  | ok (read_bytes : Nat) (ctx_after_push : DemuxCtx)
  | ioError
deriving DecidableEq

inductive TryNewResult where
  | ok (ctx : DemuxCtx) (total_bytes : Nat)
  | errUnexpectedEof
  | errIo
deriving DecidableEq

/-- `READ_TRACKS_TIMEOUT_BYTES = Packet::SIZE * 4096` with 188-byte TS
packets. -/
def READ_TRACKS_TIMEOUT_BYTES : Nat := 188 * 4096

/-- The `while` condition of `try_new`. -/
def tryNewLoopCond (ctx : DemuxCtx) (total_bytes : Nat) : Prop :=
  (ctx.has_started_any_stream = false ∨
    ctx.tracks.length < ctx.stream_count) ∧
  total_bytes < READ_TRACKS_TIMEOUT_BYTES

instance (ctx : DemuxCtx) (total_bytes : Nat) :
    Decidable (tryNewLoopCond ctx total_bytes) := by
  unfold tryNewLoopCond
  infer_instance

/-- The read loop of `MpegTsReader::try_new` over a prefix of read events;
`none` when the supplied events run out while the loop still wants to read. -/
def try_new_loop (ctx : DemuxCtx) (total_bytes : Nat) :
    List ReadEvent → Option TryNewResult
  | [] =>
    if tryNewLoopCond ctx total_bytes then none
    else some (.ok ctx total_bytes)
  | e :: rest =>
    if tryNewLoopCond ctx total_bytes then
      match e with
      | .ioError => some .errIo
      | .ok n ctx' =>
        if n = 0 then some .errUnexpectedEof
        else try_new_loop ctx' (total_bytes + n) rest
    else some (.ok ctx total_bytes)

/-- Whether some read event delivers zero bytes (true EOF). -/
def hasZeroRead : List ReadEvent → Bool
  | [] => false
  | .ok 0 _ :: _ => true
  | _ :: rest => hasZeroRead rest

/-- A failed loop condition means readiness or an exhausted byte budget. -/
theorem tryNewLoopCond_not {ctx : DemuxCtx} {tb : Nat}
    (hcond : ¬ tryNewLoopCond ctx tb) :
    (ctx.has_started_any_stream = true ∧
      ctx.stream_count ≤ ctx.tracks.length) ∨
      READ_TRACKS_TIMEOUT_BYTES ≤ tb := by
  rw [tryNewLoopCond, not_and_or, not_or] at hcond
  rcases hcond with ⟨hs, hl⟩ | htb
  · exact Or.inl ⟨by simpa using hs, by omega⟩
  · exact Or.inr (by omega)

/-- C9 amended: when `try_new` returns a reader, either readiness was
reached (some stream started and at least as many tracks as announced ADTS
streams exist) or the 4096-packet byte budget was exhausted — budget
exhaustion yields a reader, not an error; the unexpected-EOF error occurs
only when some read returns zero bytes. -/
theorem mpegts_try_new_readiness (events : List ReadEvent) (ctx : DemuxCtx)
    (tb : Nat) (r : TryNewResult)
    (h : try_new_loop ctx tb events = some r) :
    (∀ c t, r = .ok c t →
      (c.has_started_any_stream = true ∧ c.stream_count ≤ c.tracks.length) ∨
        READ_TRACKS_TIMEOUT_BYTES ≤ t) ∧
    (r = .errUnexpectedEof → hasZeroRead events = true) := by
  induction events generalizing ctx tb with
  | nil =>
    rw [try_new_loop] at h
    split at h
    · cases h
    · rename_i hcond
      cases h
      refine ⟨fun c t hct => ?_, fun habs => nomatch habs⟩
      cases hct
      exact tryNewLoopCond_not hcond
  | cons e rest ih =>
    cases e with
    | ioError =>
      rw [try_new_loop] at h
      split at h
      · cases h
        exact ⟨(fun c t hct => nomatch hct), (fun habs => nomatch habs)⟩
      · rename_i hcond
        cases h
        refine ⟨fun c t hct => ?_, fun habs => by cases habs⟩
        cases hct
        exact tryNewLoopCond_not hcond
    | ok n ctx' =>
      rw [try_new_loop] at h
      split at h
      · by_cases hn : n = 0
        · rw [if_pos hn] at h
          cases h
          refine ⟨(fun c t hct => nomatch hct), fun _ => ?_⟩
          subst hn
          rfl
        · rw [if_neg hn] at h
          obtain ⟨h1, h2⟩ := ih ctx' (tb + n) h
          refine ⟨h1, fun heof => ?_⟩
          have hz := h2 heof
          cases n with
          | zero => exact absurd rfl hn
          | succ k => simpa [hasZeroRead] using hz
      · rename_i hcond
        cases h
        refine ⟨fun c t hct => ?_, fun habs => by cases habs⟩
        cases hct
        exact tryNewLoopCond_not hcond

/-- C9 counterexample: a single read of exactly the 4096-packet budget with
no stream started and one ADTS stream announced makes `try_new` return a
*reader* (`Ok`), not an unexpected-EOF error. -/
theorem mpegts_budget_counterexample :
    try_new_loop ⟨1, false, []⟩ 0
        [.ok READ_TRACKS_TIMEOUT_BYTES ⟨1, false, []⟩] =
      some (.ok ⟨1, false, []⟩ READ_TRACKS_TIMEOUT_BYTES) ∧
    (⟨1, false, []⟩ : DemuxCtx).has_started_any_stream = false ∧
    some (TryNewResult.ok ⟨1, false, []⟩ READ_TRACKS_TIMEOUT_BYTES) ≠
      some TryNewResult.errUnexpectedEof := by
  refine ⟨by decide, rfl, fun h => ?_⟩
  cases h

/-- C9 witness: a run that becomes ready after one 188-byte read. -/
theorem mpegts_try_new_readiness_witness :
    (∀ c t, (TryNewResult.ok ⟨1, true, [42]⟩ 188 : TryNewResult) = .ok c t →
      (c.has_started_any_stream = true ∧ c.stream_count ≤ c.tracks.length) ∨
        READ_TRACKS_TIMEOUT_BYTES ≤ t) ∧
    ((TryNewResult.ok ⟨1, true, [42]⟩ 188 : TryNewResult) = .errUnexpectedEof →
      hasZeroRead [.ok 188 ⟨1, true, [42]⟩] = true) :=
  mpegts_try_new_readiness [.ok 188 ⟨1, true, [42]⟩] ⟨1, false, []⟩ 0
    (.ok ⟨1, true, [42]⟩ 188) (by decide)

/-! ### Round-robin fairness (C1) -/

/-- The state after one `advance_room_after_end` call. -/
def advanceState {E : Type} (delegate : Delegate) (m : GuildModel E)
    (channel_id : Nat) : GuildModel E :=
  (GuildModel.next_channel_entry_finished delegate m channel_id).2

/-- A queue with its head entry popped. -/
def tailQueue {E : Type} (q : Queue E) : Queue E :=
  ⟨q.user_id, q.entries.tail⟩

/-- Pop the head entry of the `i`-th queue. -/
def setTail {E : Type} : List (Queue E) → Nat → List (Queue E)
  | [], _ => []
  | q :: rest, 0 => tailQueue q :: rest
  | q :: rest, i + 1 => q :: setTail rest i

/-- The user id stored at position `i` of the round-robin order. -/
def userAt {E : Type} (qs : List (Queue E)) (i : Nat) : Nat :=
  (qs.map fun q => q.user_id).getD i 0

/-- The pending entries stored at position `i` of the round-robin order. -/
def entriesAt {E : Type} (qs : List (Queue E)) (i : Nat) : List E :=
  (qs.map fun q => q.entries).getD i []

/-- Whether position `i` is among the first `k` round-robin picks after
position `j`. -/
def servedIdx (n j k i : Nat) : Bool :=
  (List.range k).any fun t => (j + 1 + t) % n == i

/-- The queue list after `k` round-robin pops following position `j`. -/
def rrQueues {E : Type} (qs : List (Queue E)) (j : Nat) : Nat → List (Queue E)
  | 0 => qs
  | k + 1 => setTail (rrQueues qs j k) ((j + 1 + k) % qs.length)

/-- The guild model after `k` round-robin advances on room `R`, starting
from a model whose room `R` plays the entry of the user at position `j`. -/
def rrModel {E : Type} (cfg : AppModelConfig) (R : Nat) (qs : List (Queue E))
    (j k : Nat) : GuildModel E :=
  ⟨cfg, rrQueues qs j k,
    [(R, .playing (userAt qs ((j + k) % qs.length)) ∅ ∅)]⟩

theorem setTail_length {E : Type} (l : List (Queue E)) (i : Nat) :
    (setTail l i).length = l.length := by
  induction l generalizing i with
  | nil => rfl
  | cons q rest ih =>
    cases i with
    | zero => rfl
    | succ i => simp [setTail, ih]

theorem setTail_map_user {E : Type} (l : List (Queue E)) (i : Nat) :
    (setTail l i).map (fun q => q.user_id) = l.map fun q => q.user_id := by
  induction l generalizing i with
  | nil => rfl
  | cons q rest ih =>
    cases i with
    | zero => simp [setTail, tailQueue]
    | succ i => simp [setTail, ih]

theorem setTail_getElem?_self {E : Type} (l : List (Queue E)) (i : Nat) :
    (setTail l i)[i]? = (l[i]?).map tailQueue := by
  induction l generalizing i with
  | nil => simp [setTail]
  | cons q rest ih =>
    cases i with
    | zero => simp [setTail]
    | succ i => simpa [setTail] using ih i

theorem setTail_getElem?_ne {E : Type} (l : List (Queue E)) (i i' : Nat)
    (h : i' ≠ i) : (setTail l i)[i']? = l[i']? := by
  induction l generalizing i i' with
  | nil => simp [setTail]
  | cons q rest ih =>
    cases i with
    | zero =>
      cases i' with
      | zero => exact absurd rfl h
      | succ i' => simp [setTail]
    | succ i =>
      cases i' with
      | zero => simp [setTail]
      | succ i' => simpa [setTail] using ih i i' (fun hc => h (by omega))

theorem rrQueues_length {E : Type} (qs : List (Queue E)) (j k : Nat) :
    (rrQueues qs j k).length = qs.length := by
  induction k with
  | zero => rfl
  | succ k ih => rw [rrQueues, setTail_length, ih]

theorem rrQueues_map_user {E : Type} (qs : List (Queue E)) (j k : Nat) :
    (rrQueues qs j k).map (fun q => q.user_id) = qs.map fun q => q.user_id := by
  induction k with
  | zero => rfl
  | succ k ih => rw [rrQueues, setTail_map_user, ih]

/-- Two distinct round-robin offsets below `n` target distinct positions. -/
theorem rr_offset_inj {n j t k : Nat} (ht : t < n) (hk : k < n)
    (h : (j + 1 + t) % n = (j + 1 + k) % n) : t = k := by
  have h1 : j + 1 + t ∈ Finset.Ico (j + 1) (j + 1 + n) :=
    Finset.mem_Ico.mpr (by omega)
  have h2 : j + 1 + k ∈ Finset.Ico (j + 1) (j + 1 + n) :=
    Finset.mem_Ico.mpr (by omega)
  have := Nat.mod_injOn_Ico (j + 1) n (Finset.mem_coe.mpr h1)
    (Finset.mem_coe.mpr h2) h
  omega

theorem servedIdx_zero (n j i : Nat) : servedIdx n j 0 i = false := by
  simp [servedIdx]

theorem servedIdx_succ (n j k i : Nat) :
    servedIdx n j (k + 1) i =
      (servedIdx n j k i || ((j + 1 + k) % n == i)) := by
  rw [servedIdx, servedIdx, List.range_succ, List.any_append]
  simp

/-- The position picked at step `k` was not served in the first `k` steps. -/
theorem servedIdx_self_false {n j k : Nat} (hk : k < n) :
    servedIdx n j k ((j + 1 + k) % n) = false := by
  rw [servedIdx]
  simp only [List.any_eq_false, List.mem_range, beq_iff_eq]
  intro t ht heq
  have := rr_offset_inj (by omega : t < n) hk heq
  omega

/-- Characterization of the popped queue list: position `i` holds the
original queue, with its head popped exactly when `i` was served. -/
theorem rrQueues_getElem? {E : Type} (qs : List (Queue E)) (j k : Nat)
    (hk : k ≤ qs.length) (i : Nat) :
    (rrQueues qs j k)[i]? =
      if servedIdx qs.length j k i then (qs[i]?).map tailQueue else qs[i]? := by
  induction k with
  | zero => rw [servedIdx_zero, if_neg (by simp)]; rfl
  | succ k ih =>
    have hk' : k ≤ qs.length := by omega
    rw [rrQueues, servedIdx_succ]
    by_cases hii : i = (j + 1 + k) % qs.length
    · subst hii
      rw [setTail_getElem?_self, ih hk',
        servedIdx_self_false (by omega : k < qs.length)]
      simp
    · rw [setTail_getElem?_ne _ _ _ hii, ih hk']
      have : ((j + 1 + k) % qs.length == i) = false := by
        simp only [beq_eq_false_iff_ne, ne_eq]
        exact fun hc => hii hc.symm
      rw [this, Bool.or_false]

theorem userAt_getElem? {E : Type} (qs : List (Queue E)) (i : Nat)
    (q : Queue E) (h : qs[i]? = some q) : userAt qs i = q.user_id := by
  rw [userAt, List.getD_eq_getElem?_getD, List.getElem?_map, h]
  rfl

theorem entriesAt_getElem? {E : Type} (qs : List (Queue E)) (i : Nat)
    (q : Queue E) (h : qs[i]? = some q) : entriesAt qs i = q.entries := by
  rw [entriesAt, List.getD_eq_getElem?_getD, List.getElem?_map, h]
  rfl

theorem getElem?_users {E : Type} (qs : List (Queue E)) (i : Nat)
    (hi : i < qs.length) :
    (qs.map fun q => q.user_id)[i]? = some (userAt qs i) := by
  rw [List.getElem?_map]
  rw [List.getElem?_eq_getElem hi]
  rw [userAt_getElem? qs i _ (List.getElem?_eq_getElem hi)]
  rfl

/-- `userAt` only reads the user-id list. -/
theorem userAt_congr {E : Type} (l l' : List (Queue E))
    (h : l.map (fun q => q.user_id) = l'.map fun q => q.user_id) (i : Nat) :
    userAt l i = userAt l' i := by
  rw [userAt, userAt, h]

/-- `Iterator::position` of a user only reads the user-id list. -/
theorem listPosition_congr {E : Type} (l l' : List (Queue E))
    (h : l.map (fun q => q.user_id) = l'.map fun q => q.user_id) (u : Nat) :
    listPosition u l = listPosition u l' := by
  induction l generalizing l' with
  | nil =>
    cases l' with
    | nil => rfl
    | cons q' rest' => cases h
  | cons q rest ih =>
    cases l' with
    | nil => cases h
    | cons q' rest' =>
      simp only [List.map_cons, List.cons.injEq] at h
      rw [listPosition, listPosition, h.1, ih rest' h.2]

/-- With pairwise-distinct user ids, `Iterator::position` of the user at
position `i` returns `i`. -/
theorem listPosition_eq {E : Type} (qs : List (Queue E))
    (hnodup : (qs.map fun q => q.user_id).Nodup) (i : Nat)
    (hi : i < qs.length) : listPosition (userAt qs i) qs = some i := by
  induction qs generalizing i with
  | nil => cases hi
  | cons q rest ih =>
    rw [List.map_cons, List.nodup_cons] at hnodup
    cases i with
    | zero =>
      rw [show userAt (q :: rest) 0 = q.user_id from rfl, listPosition,
        if_pos rfl]
    | succ i =>
      have hi' : i < rest.length := by simpa using hi
      have huser : userAt (q :: rest) (i + 1) = userAt rest i := rfl
      have hmem : userAt rest i ∈ rest.map fun q => q.user_id := by
        exact List.getElem?_mem (getElem?_users rest i hi')
      rw [huser, listPosition,
        if_neg (fun hc => hnodup.1 (by rw [hc]; exact hmem)),
        ih hnodup.2 i hi']
      rfl

/-- `find_first_user_in_channel` factors through the user-id list. -/
theorem find_first_map {E : Type} (l : List (Queue E)) (d : Delegate)
    (c : Nat) :
    find_first_user_in_channel l d c =
      (l.map fun q => q.user_id).find? fun u => d u c := by
  induction l with
  | nil => rfl
  | cons q rest ih =>
    rw [find_first_user_in_channel] at *
    rw [List.map_cons]
    cases hq : d q.user_id c with
    | false =>
      simp only [List.find?, hq]
      exact ih
    | true =>
      simp only [List.find?, hq]
      rfl

theorem find?_head {α : Type} (p : α → Bool) (l : List α)
    (h : ∀ a ∈ l, p a = true) : l.find? p = l.head? := by
  cases l with
  | nil => rfl
  | cons a rest => rw [List.find?_cons_of_pos _ (h a (by simp))]; rfl

/-- The head of the round-robin rotation starting after position `p`. -/
theorem head?_rotation {α : Type} (l : List α) (p : Nat) (hp : p < l.length) :
    (l.drop (p + 1) ++ l.take (p + 1)).head? = l[(p + 1) % l.length]? := by
  by_cases h : p + 1 < l.length
  · rw [List.head?_append, List.head?_drop,
      List.getElem?_eq_getElem h,
      Nat.mod_eq_of_lt h, List.getElem?_eq_getElem h]
    rfl
  · have hp1 : p + 1 = l.length := by omega
    rw [hp1, List.drop_length, List.take_length, List.nil_append,
      Nat.mod_self, List.head?_eq_getElem?]

/-- `popFirstEntry` at the unique queue of a user pops that queue's head. -/
theorem popFirstEntry_eq {E : Type} (qs : List (Queue E))
    (hnodup : (qs.map fun q => q.user_id).Nodup) (i : Nat) (q0 : Queue E)
    (hq0 : qs[i]? = some q0) (e : E) (es : List E)
    (hent : q0.entries = e :: es) :
    popFirstEntry qs q0.user_id = some (e, setTail qs i) := by
  induction qs generalizing i with
  | nil => cases hq0
  | cons q rest ih =>
    rw [List.map_cons, List.nodup_cons] at hnodup
    cases i with
    | zero =>
      rw [List.getElem?_cons_zero] at hq0
      cases hq0
      rw [popFirstEntry, if_pos rfl, hent, setTail, tailQueue, hent]
      rfl
    | succ i =>
      rw [List.getElem?_cons_succ] at hq0
      have hmem : q0.user_id ∈ rest.map fun q => q.user_id := by
        rw [show q0.user_id = userAt rest i from
          (userAt_getElem? rest i q0 hq0).symm]
        exact List.getElem?_mem (getElem?_users rest i
          (by
            by_contra hlen
            rw [List.getElem?_eq_none (by omega)] at hq0
            cases hq0))
      rw [popFirstEntry,
        if_neg (fun hc => hnodup.1 (by rw [hc]; exact hmem)),
        ih hnodup.2 i hq0]
      rfl

/-- All queues stay non-empty through at most `n` round-robin pops when
every queue starts with at least two entries. -/
theorem rrQueues_entries_ne {E : Type} (qs : List (Queue E)) (j k : Nat)
    (hk : k ≤ qs.length) (h2 : ∀ q ∈ qs, 2 ≤ q.entries.length) :
    ∀ q ∈ rrQueues qs j k, q.entries ≠ [] := by
  intro q hq
  obtain ⟨i, hi⟩ := List.mem_iff_getElem?.mp hq
  rw [rrQueues_getElem? qs j k hk i] at hi
  split at hi
  · match hq0 : qs[i]? with
    | none => rw [hq0] at hi; cases hi
    | some q0 =>
      rw [hq0] at hi
      cases hi
      have := h2 q0 (List.getElem?_mem hq0)
      rw [tailQueue]
      intro hcontra
      have := congrArg List.length hcontra
      simp at this
      omega
  · have hmem := List.getElem?_mem hi
    have := h2 q hmem
    intro hcontra
    rw [hcontra] at this
    simp at this

/-- One round-robin advance: from the state after `k` pops, the call pops the
head entry of the user at position `(j + 1 + k) % n` and moves to the state
after `k + 1` pops. -/
theorem rr_step {E : Type} (cfg : AppModelConfig) (d : Delegate) (R : Nat)
    (qs : List (Queue E)) (j k : Nat)
    (hnodup : (qs.map fun q => q.user_id).Nodup)
    (hpres : ∀ q ∈ qs, d q.user_id R = true)
    (h2 : ∀ q ∈ qs, 2 ≤ q.entries.length)
    (hj : j < qs.length) (hk : k < qs.length) :
    GuildModel.next_channel_entry_finished d (rrModel cfg R qs j k) R =
      ((entriesAt qs ((j + 1 + k) % qs.length)).head?,
        rrModel cfg R qs j (k + 1)) := by
  have hn : 0 < qs.length := by omega
  have hp : (j + k) % qs.length < qs.length := Nat.mod_lt _ hn
  have hi' : (j + 1 + k) % qs.length < qs.length := Nat.mod_lt _ hn
  have hidx : ((j + k) % qs.length + 1) % qs.length =
      (j + 1 + k) % qs.length := by
    rw [Nat.mod_add_mod, Nat.add_right_comm]
  have hQmap := rrQueues_map_user qs j k
  have hQlen := rrQueues_length qs j k
  have hQnodup : ((rrQueues qs j k).map fun q => q.user_id).Nodup := by
    rw [hQmap]; exact hnodup
  have hpres' : ∀ u ∈ qs.map fun q => q.user_id, d u R = true := by
    intro u hu
    obtain ⟨q, hq, rfl⟩ := List.mem_map.mp hu
    exact hpres q hq
  -- the position of the previously playing user
  have hpos : listPosition (userAt qs ((j + k) % qs.length))
      (rrQueues qs j k) = some ((j + k) % qs.length) := by
    rw [userAt_congr qs (rrQueues qs j k) hQmap.symm]
    exact listPosition_eq (rrQueues qs j k) hQnodup _ (by rw [hQlen]; exact hp)
  -- the rotated scan picks the next user
  have hrot : find_first_user_in_channel
      ((rrQueues qs j k).drop ((j + k) % qs.length + 1) ++
        (rrQueues qs j k).take ((j + k) % qs.length + 1)) d R =
      some (userAt qs ((j + 1 + k) % qs.length)) := by
    rw [find_first_map, List.map_append, List.map_drop, List.map_take, hQmap]
    rw [find?_head _ _ (by
      intro u hu
      rcases List.mem_append.mp hu with h | h
      · exact hpres' u (List.drop_subset _ _ h)
      · exact hpres' u (List.take_subset _ _ h))]
    rw [head?_rotation _ _ (by rw [List.length_map]; exact hp)]
    rw [List.length_map, hidx]
    exact getElem?_users qs _ hi'
  have hscan : nextUserScan d (rrQueues qs j k)
      (.playing (userAt qs ((j + k) % qs.length)) ∅ ∅) R =
      some (userAt qs ((j + 1 + k) % qs.length)) := by
    rw [nextUserScan]
    simp only [hpos]
    exact hrot
  -- the popped queue
  have hq0' : qs[(j + 1 + k) % qs.length]? =
      some (qs.get ⟨(j + 1 + k) % qs.length, hi'⟩) := by
    rw [List.getElem?_eq_getElem hi']
    rfl
  have hq0 : (rrQueues qs j k)[(j + 1 + k) % qs.length]? =
      some (qs.get ⟨(j + 1 + k) % qs.length, hi'⟩) := by
    rw [rrQueues_getElem? qs j k hk.le, servedIdx_self_false hk]
    simp only [Bool.false_eq_true, if_false]
    exact hq0'
  have hu' : userAt qs ((j + 1 + k) % qs.length) =
      (qs.get ⟨(j + 1 + k) % qs.length, hi'⟩).user_id :=
    userAt_getElem? qs _ _ hq0'
  obtain ⟨e, es, hent⟩ : ∃ e es,
      (qs.get ⟨(j + 1 + k) % qs.length, hi'⟩).entries = e :: es := by
    cases hq : (qs.get ⟨(j + 1 + k) % qs.length, hi'⟩).entries with
    | nil =>
      have := h2 _ (List.getElem?_mem hq0')
      rw [hq] at this
      simp at this
    | cons e es => exact ⟨e, es, rfl⟩
  have hpop : popFirstEntry (rrQueues qs j k)
      (userAt qs ((j + 1 + k) % qs.length)) =
      some (e, setTail (rrQueues qs j k) ((j + 1 + k) % qs.length)) := by
    rw [hu']
    exact popFirstEntry_eq (rrQueues qs j k) hQnodup _ _ hq0 e es hent
  have hhead : (entriesAt qs ((j + 1 + k) % qs.length)).head? = some e := by
    rw [entriesAt_getElem? qs _ _ hq0', hent]
    rfl
  -- queue pruning is the identity here
  have hfilter : (setTail (rrQueues qs j k)
        ((j + 1 + k) % qs.length)).filter (fun q => !q.entries.isEmpty) =
      setTail (rrQueues qs j k) ((j + 1 + k) % qs.length) := by
    apply List.filter_eq_self.mpr
    intro q hq
    have hne := rrQueues_entries_ne qs j (k + 1) (by omega) h2 q (by
      rw [rrQueues]
      exact hq)
    simpa using hne
  have hjk1 : j + (k + 1) = j + 1 + k := by omega
  -- assemble the call
  simp only [GuildModel.next_channel_entry_finished, rrModel]
  rw [show lookupChannel
      [(R, ChannelPlayingState.playing (userAt qs ((j + k) % qs.length)) ∅ ∅)]
      R =
      some (ChannelPlayingState.playing (userAt qs ((j + k) % qs.length)) ∅ ∅)
    from by simp [lookupChannel]]
  simp only [Option.getD_some, hscan, GuildModel.advanceWithUser, hpop]
  rw [hhead, hfilter, hjk1,
    show rrQueues qs j (k + 1) =
      setTail (rrQueues qs j k) ((j + 1 + k) % qs.length) from rfl]
  simp [setChannel, ChannelPlayingState.is_playing]

/-- Iterating `advance_room_after_end` walks the round-robin states. -/
theorem rr_iterate {E : Type} (cfg : AppModelConfig) (d : Delegate) (R : Nat)
    (qs : List (Queue E)) (j : Nat)
    (hnodup : (qs.map fun q => q.user_id).Nodup)
    (hpres : ∀ q ∈ qs, d q.user_id R = true)
    (h2 : ∀ q ∈ qs, 2 ≤ q.entries.length)
    (hj : j < qs.length) :
    ∀ k, k ≤ qs.length →
      (fun m => advanceState d m R)^[k] (rrModel cfg R qs j 0) =
        rrModel cfg R qs j k := by
  intro k
  induction k with
  | zero => intro _; rfl
  | succ k ih =>
    intro hk1
    rw [Function.iterate_succ_apply', ih (by omega)]
    show advanceState d (rrModel cfg R qs j k) R = _
    rw [advanceState, rr_step cfg d R qs j k hnodup hpres h2 hj (by omega)]

/-- C1 amended: starting from a model whose round-robin order holds users
with pairwise-distinct ids, *each with at least two pending entries* and all
present in room `R`, where `R` is playing the entry of the user at position
`j`, the `k`-th of `n` successive `advance_room_after_end` calls returns the
head entry of the user at position `(j + 1 + k) % n` — the users after `j`
in cyclic order, pairwise distinct — and leaves `R` playing with that user
as `playing_user_id`.  (With single-entry queues the claim fails: a served
user's emptied queue is pruned, the position lookup then misses, and the
scan restarts from the front — the counterexample.) -/
theorem round_robin_fairness {E : Type} (cfg : AppModelConfig) (d : Delegate)
    (R : Nat) (qs : List (Queue E)) (j k : Nat)
    (hnodup : (qs.map fun q => q.user_id).Nodup)
    (hpres : ∀ q ∈ qs, d q.user_id R = true)
    (h2 : ∀ q ∈ qs, 2 ≤ q.entries.length)
    (hj : j < qs.length) (hk : k < qs.length) :
    (GuildModel.next_channel_entry_finished d
        ((fun m => advanceState d m R)^[k] (rrModel cfg R qs j 0)) R).1 =
      (entriesAt qs ((j + 1 + k) % qs.length)).head? ∧
    (entriesAt qs ((j + 1 + k) % qs.length)).head? ≠ none ∧
    ((fun m => advanceState d m R)^[k + 1] (rrModel cfg R qs j 0)).channels =
      [(R, .playing (userAt qs ((j + 1 + k) % qs.length)) ∅ ∅)] ∧
    (∀ k', k' < qs.length →
      userAt qs ((j + 1 + k) % qs.length) =
        userAt qs ((j + 1 + k') % qs.length) → k = k') := by
  have hn : 0 < qs.length := by omega
  have hi' : (j + 1 + k) % qs.length < qs.length := Nat.mod_lt _ hn
  have hstep := rr_step cfg d R qs j k hnodup hpres h2 hj hk
  have hiter := rr_iterate cfg d R qs j hnodup hpres h2 hj k hk.le
  have hq0' : qs[(j + 1 + k) % qs.length]? =
      some (qs.get ⟨(j + 1 + k) % qs.length, hi'⟩) := by
    rw [List.getElem?_eq_getElem hi']
    rfl
  refine ⟨?_, ?_, ?_, ?_⟩
  · rw [hiter, hstep]
  · obtain ⟨e, es, hent⟩ : ∃ e es,
        (qs.get ⟨(j + 1 + k) % qs.length, hi'⟩).entries = e :: es := by
      cases hq : (qs.get ⟨(j + 1 + k) % qs.length, hi'⟩).entries with
      | nil =>
        have := h2 _ (List.getElem?_mem hq0')
        rw [hq] at this
        simp at this
      | cons e es => exact ⟨e, es, rfl⟩
    rw [entriesAt_getElem? qs _ _ hq0', hent]
    simp
  · rw [Function.iterate_succ_apply', hiter]
    show (advanceState d (rrModel cfg R qs j k) R).channels = _
    rw [advanceState, hstep]
    show [(R, ChannelPlayingState.playing
      (userAt qs ((j + (k + 1)) % qs.length)) ∅ ∅)] = _
    rw [show j + (k + 1) = j + 1 + k from by omega]
  · intro k' hk' heq
    have hi'' : (j + 1 + k') % qs.length < qs.length := Nat.mod_lt _ hn
    have ha : (qs.map fun q => q.user_id)[(j + 1 + k) % qs.length]? =
        some (userAt qs ((j + 1 + k) % qs.length)) :=
      getElem?_users qs _ hi'
    have hb : (qs.map fun q => q.user_id)[(j + 1 + k') % qs.length]? =
        some (userAt qs ((j + 1 + k') % qs.length)) :=
      getElem?_users qs _ hi''
    have hlen : (qs.map fun q => q.user_id).length = qs.length :=
      List.length_map _ _
    have hia : (j + 1 + k) % qs.length < (qs.map fun q => q.user_id).length := by
      omega
    have hib : (j + 1 + k') % qs.length <
        (qs.map fun q => q.user_id).length := by
      omega
    rw [List.getElem?_eq_getElem hia] at ha
    rw [List.getElem?_eq_getElem hib] at hb
    have ha' := Option.some.inj ha
    have hb' := Option.some.inj hb
    have hidx : (j + 1 + k) % qs.length = (j + 1 + k') % qs.length := by
      apply (List.Nodup.getElem_inj_iff hnodup).mp
      rw [ha', hb']
      exact heq
    exact rr_offset_inj hk hk' hidx

/-- C1 counterexample: users 1, 2, 3 (2 entries, 1 entry, 1 entry), all
present in room 5, which is playing user 3's entry.  Three successive
`advance_room_after_end` calls return entries `10, 20, 11` — users `1, 2, 1`
rather than three distinct users: after user 2's emptied queue is pruned,
the position lookup for user 2 fails and the scan restarts from the front,
serving user 1 again while user 3 still waits with entry `30` pending. -/
theorem round_robin_counterexample :
    (GuildModel.next_channel_entry_finished (fun _ _ => true)
        (⟨⟨2, 2⟩, [⟨1, [10, 11]⟩, ⟨2, [20]⟩, ⟨3, [30]⟩],
          [(5, .playing 3 ∅ ∅)]⟩ : GuildModel Nat) 5).1 = some 10 ∧
    (advanceState (fun _ _ => true)
        (⟨⟨2, 2⟩, [⟨1, [10, 11]⟩, ⟨2, [20]⟩, ⟨3, [30]⟩],
          [(5, .playing 3 ∅ ∅)]⟩ : GuildModel Nat) 5).channels =
      [(5, .playing 1 ∅ ∅)] ∧
    (GuildModel.next_channel_entry_finished (fun _ _ => true)
        (advanceState (fun _ _ => true)
          (⟨⟨2, 2⟩, [⟨1, [10, 11]⟩, ⟨2, [20]⟩, ⟨3, [30]⟩],
            [(5, .playing 3 ∅ ∅)]⟩ : GuildModel Nat) 5) 5).1 = some 20 ∧
    (GuildModel.next_channel_entry_finished (fun _ _ => true)
        (advanceState (fun _ _ => true)
          (advanceState (fun _ _ => true)
            (⟨⟨2, 2⟩, [⟨1, [10, 11]⟩, ⟨2, [20]⟩, ⟨3, [30]⟩],
              [(5, .playing 3 ∅ ∅)]⟩ : GuildModel Nat) 5) 5) 5).1 =
      some 11 ∧
    (advanceState (fun _ _ => true)
        (advanceState (fun _ _ => true)
          (advanceState (fun _ _ => true)
            (⟨⟨2, 2⟩, [⟨1, [10, 11]⟩, ⟨2, [20]⟩, ⟨3, [30]⟩],
              [(5, .playing 3 ∅ ∅)]⟩ : GuildModel Nat) 5) 5) 5).channels =
      [(5, .playing 1 ∅ ∅)] ∧
    (advanceState (fun _ _ => true)
        (advanceState (fun _ _ => true)
          (advanceState (fun _ _ => true)
            (⟨⟨2, 2⟩, [⟨1, [10, 11]⟩, ⟨2, [20]⟩, ⟨3, [30]⟩],
              [(5, .playing 3 ∅ ∅)]⟩ : GuildModel Nat) 5) 5) 5).queues =
      [⟨3, [30]⟩] := by
  decide

/-- C1 witness: two users with two entries each; the call after the second
user's turn serves the first user. -/
theorem round_robin_fairness_witness :
    (GuildModel.next_channel_entry_finished (fun _ _ => true)
        ((fun m => advanceState (fun _ _ => true) m 5)^[0]
          (rrModel ⟨2, 2⟩ 5 [⟨1, [10, 11]⟩, ⟨2, [20, 21]⟩] 1 0)) 5).1 =
      (entriesAt ([⟨1, [10, 11]⟩, ⟨2, [20, 21]⟩] : List (Queue Nat))
        ((1 + 1 + 0) % 2)).head? ∧
    (entriesAt ([⟨1, [10, 11]⟩, ⟨2, [20, 21]⟩] : List (Queue Nat))
        ((1 + 1 + 0) % 2)).head? ≠ none ∧
    ((fun m => advanceState (fun _ _ => true) m 5)^[0 + 1]
        (rrModel ⟨2, 2⟩ 5 [⟨1, [10, 11]⟩, ⟨2, [20, 21]⟩] 1 0)).channels =
      [(5, .playing (userAt ([⟨1, [10, 11]⟩, ⟨2, [20, 21]⟩] : List (Queue Nat))
        ((1 + 1 + 0) % 2)) ∅ ∅)] ∧
    (∀ k', k' < ([⟨1, [10, 11]⟩, ⟨2, [20, 21]⟩] : List (Queue Nat)).length →
      userAt ([⟨1, [10, 11]⟩, ⟨2, [20, 21]⟩] : List (Queue Nat))
          ((1 + 1 + 0) % 2) =
        userAt ([⟨1, [10, 11]⟩, ⟨2, [20, 21]⟩] : List (Queue Nat))
          ((1 + 1 + k') % 2) → 0 = k') :=
  round_robin_fairness ⟨2, 2⟩ (fun _ _ => true) 5
    [⟨1, [10, 11]⟩, ⟨2, [20, 21]⟩] 1 0 (by decide) (by decide) (by decide)
    (by decide) (by decide)
